import Mathlib

/-!
Verification development for the zkits-requester HTTP client library.

This file gives a shallow embedding, in Lean, of the two core components of
the library — the body resolver (the makeBodyReader method of request.go) and
the multipart upload assembler (the UploadBy method of request.go) — together
with the configuration setters that feed them, and proves the behavioural
properties stated in the specification.

Modelling conventions:
* Go byte slices and streams are modelled as Lean strings (sequences of
  characters standing for bytes).
* Go interface values are modelled by the inductive GoVal, whose constructors
  mirror the dynamic shapes distinguished by the type switches in the source;
  user-defined types are modelled by the Custom structure, which records which
  of the relevant interfaces the value implements.
* Fallible Go calls are modelled with Except; the filesystem and the HTTP
  transport are external collaborators and are passed in as explicit function
  arguments.
* Side effects on files and on the transport are recorded in an explicit
  event trace, so that statements such as "the transport is never invoked" or
  "every opened handle is closed" can be expressed.
-/

namespace Requester

/-- Errors produced by the request pipeline.  Named constructors mirror the
exported error values of request.go; ioError and marshalError stand for
underlying causes propagated unchanged from the OS or the serializers. -/
inductive GoErr where
  | emptyRequestURL
  | invalidRequestBody
  | emptyUploadBody
  | invalidUploadBody
  | unsupportedUploadMethod (method : String)
  | notRegularFile (name : String)
  | invalidBodyEncoder (enc : String)
  | ioError (msg : String)
  | marshalError (msg : String)
deriving Repr, DecidableEq

/-! ## JSON values and the standard JSON encoding

The library serializes structured bodies with encoding/json.  We model the
JSON-representable structured values by the inductive Jval and give a
concrete serializer (modelling json.Marshal on such values) and a concrete
parser (modelling standard JSON decoding), so that the round-trip property
of the specification can be stated and proved. -/

/-- A JSON-representable structured value. -/
inductive Jval where
  | null
  | bool (b : Bool)
  | num (n : Int)
  | str (s : String)
  | arr (elems : List Jval)
  | obj (fields : List (String × Jval))
deriving Repr, BEq

/-- Character for a single decimal digit. -/
def digitChar (d : Nat) : Char := Char.ofNat (48 + d)

/-- Character for a single hexadecimal digit (lower case, as emitted by
encoding/json for control-character escapes). -/
def hexDigitChar (d : Nat) : Char :=
  if d < 10 then Char.ofNat (48 + d) else Char.ofNat (87 + d)

/-- Decimal digit characters of a natural number, most significant first. -/
def natRepr (n : Nat) : List Char :=
  if n = 0 then ['0'] else ((Nat.digits 10 n).map digitChar).reverse

/-- Decimal representation of an integer, as printed by the JSON encoder. -/
def intRepr (n : Int) : List Char :=
  if n < 0 then '-' :: natRepr n.natAbs else natRepr n.natAbs

/-- JSON escape of one character: quote and backslash get two-character
escapes, the common control characters get their short forms, the remaining
control characters get a four-digit hexadecimal escape, and every other
character stands for itself. -/
def escChar (c : Char) : List Char :=
  if c = '"' then ['\\', '"']
  else if c = '\\' then ['\\', '\\']
  else if c = '\n' then ['\\', 'n']
  else if c = '\r' then ['\\', 'r']
  else if c = '\t' then ['\\', 't']
  else if c.toNat < 32 then
    ['\\', 'u', '0', '0', hexDigitChar (c.toNat / 16), hexDigitChar (c.toNat % 16)]
  else [c]

/-- JSON escape of a character sequence. -/
def escapeChars (cs : List Char) : List Char := cs.flatMap escChar

/-- A JSON string literal: the escaped contents between double quotes. -/
def strLit (s : String) : List Char := '"' :: escapeChars s.data ++ ['"']

mutual

/-- Characters of the standard JSON encoding of a value, as produced by
json.Marshal: no insignificant whitespace, object fields in the order of the
field list. -/
def serializeChars : Jval → List Char
  | .null => "null".data
  | .bool true => "true".data
  | .bool false => "false".data
  | .num n => intRepr n
  | .str s => strLit s
  | .arr [] => ['[', ']']
  | .arr (x :: xs) => '[' :: (serializeChars x ++ serializeElems xs) ++ [']']
  | .obj [] => ['\x7b', '\x7d']
  | .obj (kv :: kvs) => '\x7b' :: (serializeField kv ++ serializeFields kvs) ++ ['\x7d']

/-- Continuation of an array: a comma before every further element. -/
def serializeElems : List Jval → List Char
  | [] => []
  | x :: xs => ',' :: serializeChars x ++ serializeElems xs

/-- One object field: quoted key, colon, value. -/
def serializeField : String × Jval → List Char
  | (k, v) => strLit k ++ ':' :: serializeChars v

/-- Continuation of an object: a comma before every further field. -/
def serializeFields : List (String × Jval) → List Char
  | [] => []
  | kv :: kvs => ',' :: serializeField kv ++ serializeFields kvs

end

/-- The standard JSON encoding of a structured value, as a string. -/
def jsonSerialize (j : Jval) : String := ⟨serializeChars j⟩

theorem serializeChars_null : serializeChars Jval.null = ['n', 'u', 'l', 'l'] := by
  simp only [serializeChars]

theorem serializeChars_true : serializeChars (Jval.bool true) = ['t', 'r', 'u', 'e'] := by
  simp only [serializeChars]

theorem serializeChars_false :
    serializeChars (Jval.bool false) = ['f', 'a', 'l', 's', 'e'] := by
  simp only [serializeChars]

/-! ## A standard JSON parser

The parser consumes a character list and returns the parsed value together
with the unconsumed remainder.  Recursion over values is bounded by an
explicit fuel parameter; the public entry point jsonParse supplies fuel
larger than the input length, which is always sufficient. -/

/-- Decimal digit test on a character. -/
def isDigitChar (c : Char) : Bool := 48 ≤ c.toNat && c.toNat ≤ 57

/-- Numeric value of a decimal digit character. -/
def digitVal (c : Char) : Nat := c.toNat - 48

/-- Numeric value of a hexadecimal digit character, both cases accepted. -/
def hexVal (c : Char) : Option Nat :=
  if 48 ≤ c.toNat ∧ c.toNat ≤ 57 then some (c.toNat - 48)
  else if 97 ≤ c.toNat ∧ c.toNat ≤ 102 then some (c.toNat - 87)
  else if 65 ≤ c.toNat ∧ c.toNat ≤ 70 then some (c.toNat - 55)
  else none

/-- Whether a character list starts with a decimal digit. -/
def headIsDigit : List Char → Bool
  | [] => false
  | c :: _ => isDigitChar c

/-- Consume a maximal run of decimal digits, accumulating their value. -/
def parseDigitsAux : List Char → Nat → Nat × List Char
  | [], acc => (acc, [])
  | c :: rest, acc =>
    if isDigitChar c then parseDigitsAux rest (acc * 10 + digitVal c) else (acc, c :: rest)

/-- Parse a nonempty run of decimal digits as a natural number. -/
def parseNat : List Char → Option (Nat × List Char)
  | [] => none
  | c :: rest =>
    if isDigitChar c then some (parseDigitsAux rest (digitVal c)) else none

/-- Consume an expected literal character sequence. -/
def expectChars : List Char → List Char → Option (List Char)
  | [], l => some l
  | _ :: _, [] => none
  | p :: ps, c :: cs => if c = p then expectChars ps cs else none

/-- Branch on whether the input starts with a given character, consuming it
in the positive case. -/
def ifHeadThen (h : Char) (l : List Char) (pos : List Char → α) (neg : Unit → α) : α :=
  match l with
  | c :: r => if c = h then pos r else neg ()
  | [] => neg ()

/-- Unescaped form of a single-character JSON escape. -/
def unescapeChar (e : Char) : Option Char :=
  if e = '"' then some '"'
  else if e = '\\' then some '\\'
  else if e = '/' then some '/'
  else if e = 'n' then some '\n'
  else if e = 'r' then some '\r'
  else if e = 't' then some '\t'
  else if e = 'b' then some (Char.ofNat 8)
  else if e = 'f' then some (Char.ofNat 12)
  else none

/-- Parse exactly four hexadecimal digit characters. -/
def parseHex4 : List Char → Option (Nat × List Char)
  | h1 :: h2 :: h3 :: h4 :: rest =>
    match hexVal h1, hexVal h2, hexVal h3, hexVal h4 with
    | some a, some b, some c, some d => some ((((a * 16 + b) * 16 + c) * 16 + d), rest)
    | _, _, _, _ => none
  | _ => none

mutual

/-- Parse the body of a JSON string literal after its opening quote, up to
and including the closing quote; returns the contents and the remainder.
The fuel argument only bounds recursion depth; any fuel larger than the
input length is sufficient. -/
def parseStrChars : Nat → List Char → Option (List Char × List Char)
  | 0, _ => none
  | _ + 1, [] => none
  | fuel + 1, c :: rest =>
    if c = '"' then some ([], rest)
    else if c = '\\' then parseEscaped fuel rest
    else (parseStrChars fuel rest).map (fun p => (c :: p.1, p.2))

/-- Parse the remainder of a string literal after a backslash. -/
def parseEscaped : Nat → List Char → Option (List Char × List Char)
  | 0, _ => none
  | _ + 1, [] => none
  | fuel + 1, e :: rest2 =>
    if e = 'u' then
      match parseHex4 rest2 with
      | some (n, rest3) => (parseStrChars fuel rest3).map (fun p => (Char.ofNat n :: p.1, p.2))
      | none => none
    else
      match unescapeChar e with
      | some u => (parseStrChars fuel rest2).map (fun p => (u :: p.1, p.2))
      | none => none

end

/-- Parse a complete JSON string literal starting at its opening quote. -/
def parseStr (l : List Char) : Option (List Char × List Char) :=
  parseStrChars (l.length + 1) l

mutual

/-- Parse one JSON value. -/
def parseJval : Nat → List Char → Option (Jval × List Char)
  | 0, _ => none
  | fuel + 1, input =>
    match input with
    | [] => none
    | c :: rest =>
      if c = 'n' then (expectChars ['u', 'l', 'l'] rest).map (fun r => (.null, r))
      else if c = 't' then (expectChars ['r', 'u', 'e'] rest).map (fun r => (.bool true, r))
      else if c = 'f' then (expectChars ['a', 'l', 's', 'e'] rest).map (fun r => (.bool false, r))
      else if c = '"' then (parseStr rest).map (fun p => (.str ⟨p.1⟩, p.2))
      else if c = '[' then
        ifHeadThen ']' rest (fun r => some (.arr [], r))
          (fun _ => (parseElems fuel rest).map (fun p => (.arr p.1, p.2)))
      else if c = '\x7b' then
        ifHeadThen '\x7d' rest (fun r => some (.obj [], r))
          (fun _ => (parseFields fuel rest).map (fun p => (.obj p.1, p.2)))
      else if c = '-' then (parseNat rest).map (fun p => (.num (-(p.1 : Int)), p.2))
      else (parseNat (c :: rest)).map (fun p => (.num (p.1 : Int), p.2))

/-- Parse the elements of a nonempty JSON array after its opening bracket,
up to and including the closing bracket. -/
def parseElems : Nat → List Char → Option (List Jval × List Char)
  | 0, _ => none
  | fuel + 1, input =>
    match parseJval fuel input with
    | none => none
    | some (v, rest) =>
      ifHeadThen ',' rest (fun r => (parseElems fuel r).map (fun p => (v :: p.1, p.2)))
        (fun _ => ifHeadThen ']' rest (fun r => some ([v], r)) (fun _ => none))

/-- Parse the fields of a nonempty JSON object after its opening brace, up
to and including the closing brace. -/
def parseFields : Nat → List Char → Option (List (String × Jval) × List Char)
  | 0, _ => none
  | fuel + 1, input =>
    match input with
    | '"' :: rest =>
      match parseStr rest with
      | none => none
      | some (k, rest1) =>
        ifHeadThen ':' rest1
          (fun rest2 =>
            match parseJval fuel rest2 with
            | none => none
            | some (v, rest3) =>
              ifHeadThen ',' rest3
                (fun r => (parseFields fuel r).map (fun p => ((⟨k⟩, v) :: p.1, p.2)))
                (fun _ =>
                  ifHeadThen '\x7d' rest3 (fun r => some ([(⟨k⟩, v)], r)) (fun _ => none)))
          (fun _ => none)
    | _ => none

end

/-- Standard JSON decoding of a string into a structured value.  Succeeds
only when the whole input is consumed. -/
def jsonParse (s : String) : Option Jval :=
  match parseJval (s.data.length + 1) s.data with
  | some (j, []) => some j
  | _ => none

/-! ## Round-trip lemmas for the JSON codec -/

theorem isDigitChar_digitChar {d : Nat} (h : d < 10) :
    isDigitChar (digitChar d) = true := by
  interval_cases d <;> decide

theorem digitVal_digitChar {d : Nat} (h : d < 10) :
    digitVal (digitChar d) = d := by
  interval_cases d <;> decide

theorem hexVal_hexDigitChar {d : Nat} (h : d < 16) :
    hexVal (hexDigitChar d) = some d := by
  interval_cases d <;> decide

theorem parseDigitsAux_stop (rest : List Char) (hrest : headIsDigit rest = false)
    (acc : Nat) : parseDigitsAux rest acc = (acc, rest) := by
  cases rest with
  | nil => rfl
  | cons c cs =>
    simp only [headIsDigit] at hrest
    simp [parseDigitsAux, hrest]

theorem parseDigitsAux_append (ds : List Nat) (rest : List Char) (acc : Nat)
    (hds : ∀ d ∈ ds, d < 10) (hrest : headIsDigit rest = false) :
    parseDigitsAux (ds.map digitChar ++ rest) acc
      = (ds.foldl (fun a d => a * 10 + d) acc, rest) := by
  induction ds generalizing acc with
  | nil => simpa using parseDigitsAux_stop rest hrest acc
  | cons d ds ih =>
    have hd : d < 10 := hds d (by simp)
    simp only [List.map_cons, List.cons_append, parseDigitsAux,
      isDigitChar_digitChar hd, digitVal_digitChar hd, if_pos, List.foldl_cons]
    exact ih (acc * 10 + d) (fun x hx => hds x (by simp [hx]))

theorem foldr_eq_ofDigits (L : List Nat) :
    L.foldr (fun d a => a * 10 + d) 0 = Nat.ofDigits 10 L := by
  induction L with
  | nil => simp [Nat.ofDigits]
  | cons d L ih =>
    rw [List.foldr_cons, ih, Nat.ofDigits_cons]
    simp [Nat.mul_comm, Nat.add_comm]

theorem foldl_reverse_digits (L : List Nat) :
    L.reverse.foldl (fun a d => a * 10 + d) 0 = Nat.ofDigits 10 L := by
  rw [List.foldl_reverse]
  exact foldr_eq_ofDigits L

theorem natRepr_head (n : Nat) :
    ∃ d t, natRepr n = digitChar d :: t ∧ d < 10 := by
  by_cases h0 : n = 0
  · refine ⟨0, [], ?_, by norm_num⟩
    subst h0
    decide
  · have hne : Nat.digits 10 n ≠ [] := Nat.digits_ne_nil_iff_ne_zero.mpr h0
    have hrev : (Nat.digits 10 n).reverse ≠ [] := by simpa using hne
    obtain ⟨d, ds, hds⟩ := List.exists_cons_of_ne_nil hrev
    refine ⟨d, ds.map digitChar, ?_, ?_⟩
    · rw [natRepr, if_neg h0, ← List.map_reverse, hds, List.map_cons]
    · have : d ∈ Nat.digits 10 n := by
        rw [← List.mem_reverse, hds]; simp
      exact Nat.digits_lt_base (by norm_num) this

theorem parseNat_natRepr (n : Nat) (rest : List Char)
    (hrest : headIsDigit rest = false) :
    parseNat (natRepr n ++ rest) = some (n, rest) := by
  by_cases h0 : n = 0
  · subst h0
    have hrepr : natRepr 0 = ['0'] := by decide
    rw [hrepr, List.singleton_append]
    have hstep : parseNat ('0' :: rest) = some (parseDigitsAux rest 0) := rfl
    rw [hstep, parseDigitsAux_stop rest hrest]
  · have hne : Nat.digits 10 n ≠ [] := Nat.digits_ne_nil_iff_ne_zero.mpr h0
    have hrev : (Nat.digits 10 n).reverse ≠ [] := by simpa using hne
    obtain ⟨d, ds, hds⟩ := List.exists_cons_of_ne_nil hrev
    have hlt : ∀ x ∈ (Nat.digits 10 n).reverse, x < 10 := by
      intro x hx
      exact Nat.digits_lt_base (by norm_num) (List.mem_reverse.mp hx)
    have hd : d < 10 := hlt d (by rw [hds]; simp)
    have hds' : ∀ x ∈ ds, x < 10 := fun x hx => hlt x (by rw [hds]; simp [hx])
    have hrepr : natRepr n = (d :: ds).map digitChar := by
      rw [natRepr, if_neg h0, ← List.map_reverse, hds]
    rw [hrepr]
    simp only [List.map_cons, List.cons_append, parseNat,
      isDigitChar_digitChar hd, if_pos, digitVal_digitChar hd]
    rw [parseDigitsAux_append ds rest d hds' hrest]
    have hfold : ds.foldl (fun a x => a * 10 + x) d = n := by
      have h := foldl_reverse_digits (Nat.digits 10 n)
      rw [hds, Nat.ofDigits_digits] at h
      simpa using h
    rw [hfold]

theorem escapeChars_nil : escapeChars [] = [] := rfl

theorem escapeChars_cons (c : Char) (cs : List Char) :
    escapeChars (c :: cs) = escChar c ++ escapeChars cs := by
  simp [escapeChars]

theorem parseStrChars_escape (s : List Char) (rest : List Char) :
    ∀ fuel, (escapeChars s).length + 1 ≤ fuel →
      parseStrChars fuel (escapeChars s ++ '"' :: rest) = some (s, rest) := by
  induction s with
  | nil =>
    intro fuel hfuel
    obtain ⟨f1, rfl⟩ : ∃ f1, fuel = f1 + 1 := ⟨fuel - 1, by omega⟩
    simp [escapeChars_nil, parseStrChars]
  | cons c cs ih =>
    intro fuel hfuel
    rw [escapeChars_cons] at hfuel ⊢
    rw [List.append_assoc]
    by_cases h1 : c = '"'
    · subst h1
      rw [show escChar '"' = ['\\', '"'] from rfl] at hfuel ⊢
      simp only [List.length_append, List.length_cons, List.length_nil] at hfuel
      obtain ⟨f1, rfl⟩ : ∃ f1, fuel = f1 + 1 := ⟨fuel - 1, by omega⟩
      obtain ⟨f2, rfl⟩ : ∃ f2, f1 = f2 + 1 := ⟨f1 - 1, by omega⟩
      simp +decide [parseStrChars, parseEscaped, unescapeChar,
        ih f2 (by omega)]
    · by_cases h2 : c = '\\'
      · subst h2
        rw [show escChar '\\' = ['\\', '\\'] from rfl] at hfuel ⊢
        simp only [List.length_append, List.length_cons, List.length_nil] at hfuel
        obtain ⟨f1, rfl⟩ : ∃ f1, fuel = f1 + 1 := ⟨fuel - 1, by omega⟩
        obtain ⟨f2, rfl⟩ : ∃ f2, f1 = f2 + 1 := ⟨f1 - 1, by omega⟩
        simp +decide [parseStrChars, parseEscaped, unescapeChar,
          ih f2 (by omega)]
      · by_cases h3 : c = '\n'
        · subst h3
          rw [show escChar '\n' = ['\\', 'n'] from rfl] at hfuel ⊢
          simp only [List.length_append, List.length_cons, List.length_nil] at hfuel
          obtain ⟨f1, rfl⟩ : ∃ f1, fuel = f1 + 1 := ⟨fuel - 1, by omega⟩
          obtain ⟨f2, rfl⟩ : ∃ f2, f1 = f2 + 1 := ⟨f1 - 1, by omega⟩
          simp +decide [parseStrChars, parseEscaped, unescapeChar,
            ih f2 (by omega)]
        · by_cases h4 : c = '\r'
          · subst h4
            rw [show escChar '\r' = ['\\', 'r'] from rfl] at hfuel ⊢
            simp only [List.length_append, List.length_cons, List.length_nil] at hfuel
            obtain ⟨f1, rfl⟩ : ∃ f1, fuel = f1 + 1 := ⟨fuel - 1, by omega⟩
            obtain ⟨f2, rfl⟩ : ∃ f2, f1 = f2 + 1 := ⟨f1 - 1, by omega⟩
            simp +decide [parseStrChars, parseEscaped, unescapeChar,
              ih f2 (by omega)]
          · by_cases h5 : c = '\t'
            · subst h5
              rw [show escChar '\t' = ['\\', 't'] from rfl] at hfuel ⊢
              simp only [List.length_append, List.length_cons, List.length_nil] at hfuel
              obtain ⟨f1, rfl⟩ : ∃ f1, fuel = f1 + 1 := ⟨fuel - 1, by omega⟩
              obtain ⟨f2, rfl⟩ : ∃ f2, f1 = f2 + 1 := ⟨f1 - 1, by omega⟩
              simp +decide [parseStrChars, parseEscaped, unescapeChar,
                ih f2 (by omega)]
            · by_cases h6 : c.toNat < 32
              · have hdiv : c.toNat / 16 < 16 := by omega
                have hmod : c.toNat % 16 < 16 := Nat.mod_lt _ (by norm_num)
                have hesc : escChar c
                    = ['\\', 'u', '0', '0', hexDigitChar (c.toNat / 16),
                       hexDigitChar (c.toNat % 16)] := by
                  rw [escChar, if_neg h1, if_neg h2, if_neg h3, if_neg h4,
                    if_neg h5, if_pos h6]
                rw [hesc] at hfuel ⊢
                simp only [List.length_append, List.length_cons, List.length_nil] at hfuel
                obtain ⟨f1, rfl⟩ : ∃ f1, fuel = f1 + 1 := ⟨fuel - 1, by omega⟩
                obtain ⟨f2, rfl⟩ : ∃ f2, f1 = f2 + 1 := ⟨f1 - 1, by omega⟩
                have h0 : hexVal '0' = some 0 := by decide
                have hchar : Char.ofNat (c.toNat / 16 * 16 + c.toNat % 16) = c := by
                  rw [show c.toNat / 16 * 16 + c.toNat % 16 = c.toNat by omega,
                    Char.ofNat_toNat]
                simp +decide [parseStrChars, parseEscaped, parseHex4, List.append_eq,
                  h0, hexVal_hexDigitChar hdiv, hexVal_hexDigitChar hmod,
                  hchar, ih f2 (by omega)]
              · have hesc : escChar c = [c] := by
                  rw [escChar, if_neg h1, if_neg h2, if_neg h3, if_neg h4,
                    if_neg h5, if_neg h6]
                rw [hesc] at hfuel ⊢
                simp only [List.length_append, List.length_cons, List.length_nil] at hfuel
                obtain ⟨f1, rfl⟩ : ∃ f1, fuel = f1 + 1 := ⟨fuel - 1, by omega⟩
                simp only [List.cons_append, List.append_eq, List.nil_append,
                  parseStrChars, if_neg h1, if_neg h2, ih f1 (by omega)]
                rfl

mutual

/-- Structural size of a JSON value, used to supply parser fuel. -/
def jsize : Jval → Nat
  | .null => 1
  | .bool _ => 1
  | .num _ => 1
  | .str _ => 1
  | .arr xs => 1 + jsizeElems xs
  | .obj kvs => 1 + jsizeFields kvs

/-- Structural size of array elements. -/
def jsizeElems : List Jval → Nat
  | [] => 0
  | x :: xs => 1 + jsize x + jsizeElems xs

/-- Structural size of object fields. -/
def jsizeFields : List (String × Jval) → Nat
  | [] => 0
  | kv :: kvs => 1 + jsize kv.2 + jsizeFields kvs

end

theorem jsize_pos (j : Jval) : 1 ≤ jsize j := by
  cases j <;> simp [jsize]

/-- Characters that can start a serialized JSON value. -/
def jsonStartChar (c : Char) : Bool :=
  c = 'n' || c = 't' || c = 'f' || c = '"' || c = '[' || c = '\x7b' || c = '-'
    || isDigitChar c

theorem startChar_ne {c : Char} (h : jsonStartChar c = true) :
    c ≠ ']' ∧ c ≠ '\x7d' ∧ c ≠ ',' ∧ c ≠ ':' := by
  refine ⟨?_, ?_, ?_, ?_⟩ <;> rintro rfl <;> revert h <;> decide

theorem isDigitChar_ne {c : Char} (h : isDigitChar c = true) :
    c ≠ 'n' ∧ c ≠ 't' ∧ c ≠ 'f' ∧ c ≠ '"' ∧ c ≠ '[' ∧ c ≠ '\x7b' ∧ c ≠ '-' := by
  refine ⟨?_, ?_, ?_, ?_, ?_, ?_, ?_⟩ <;> rintro rfl <;> revert h <;> decide

theorem serializeChars_head (j : Jval) :
    ∃ c t, serializeChars j = c :: t ∧ jsonStartChar c = true := by
  cases j with
  | null => exact ⟨'n', ['u', 'l', 'l'], serializeChars_null, by decide⟩
  | bool b =>
    cases b with
    | true => exact ⟨'t', ['r', 'u', 'e'], serializeChars_true, by decide⟩
    | false => exact ⟨'f', ['a', 'l', 's', 'e'], serializeChars_false, by decide⟩
  | num n =>
    by_cases hn : n < 0
    · exact ⟨'-', natRepr n.natAbs, by simp [serializeChars, intRepr, hn], by decide⟩
    · obtain ⟨d, t, ht, hd⟩ := natRepr_head n.natAbs
      refine ⟨digitChar d, t, ?_, ?_⟩
      · simp [serializeChars, intRepr, hn, ht]
      · simp [jsonStartChar, isDigitChar_digitChar hd]
  | str s =>
    exact ⟨'"', escapeChars s.data ++ ['"'], by simp [serializeChars, strLit], by decide⟩
  | arr xs =>
    cases xs with
    | nil => exact ⟨'[', [']'], by simp [serializeChars], by decide⟩
    | cons x xs =>
      exact ⟨'[', serializeChars x ++ (serializeElems xs ++ [']']),
        by simp [serializeChars], by decide⟩
  | obj kvs =>
    cases kvs with
    | nil => exact ⟨'\x7b', ['\x7d'], by simp [serializeChars], by decide⟩
    | cons kv kvs =>
      exact ⟨'\x7b', serializeField kv ++ (serializeFields kvs ++ ['\x7d']),
        by simp [serializeChars], by decide⟩

theorem expectChars_prefix (ps : List Char) (l : List Char) :
    expectChars ps (ps ++ l) = some l := by
  induction ps with
  | nil => rfl
  | cons p ps ih => simp [expectChars, ih]

theorem ifHeadThen_pos {α} (h : Char) (r : List Char) (pos : List Char → α)
    (neg : Unit → α) : ifHeadThen h (h :: r) pos neg = pos r := by
  simp [ifHeadThen]

theorem ifHeadThen_neg {α} {c h : Char} (hne : c ≠ h) (r : List Char)
    (pos : List Char → α) (neg : Unit → α) :
    ifHeadThen h (c :: r) pos neg = neg () := by
  simp [ifHeadThen, hne]

theorem headIsDigit_cons (c : Char) (l : List Char) :
    headIsDigit (c :: l) = isDigitChar c := rfl

theorem parse_serialize_aux (fuel : Nat) :
    (∀ j rest, jsize j < fuel → headIsDigit rest = false →
      parseJval fuel (serializeChars j ++ rest) = some (j, rest)) ∧
    (∀ x xs rest, 2 + jsize x + jsizeElems xs ≤ fuel → headIsDigit rest = false →
      parseElems fuel (serializeChars x ++ (serializeElems xs ++ ']' :: rest))
        = some (x :: xs, rest)) ∧
    (∀ k v kvs rest, 2 + jsize v + jsizeFields kvs ≤ fuel → headIsDigit rest = false →
      parseFields fuel
          ('"' :: (escapeChars k.data ++ ('"' :: (':' :: (serializeChars v
            ++ (serializeFields kvs ++ '\x7d' :: rest))))))
        = some ((k, v) :: kvs, rest)) := by
  induction fuel using Nat.strong_induction_on with
  | _ fuel IH =>
  refine ⟨?_, ?_, ?_⟩
  · intro j rest hj hrest
    cases fuel with
    | zero => omega
    | succ F =>
      cases j with
      | null =>
        rw [serializeChars_null]
        simp +decide [parseJval, expectChars]
      | bool b =>
        cases b with
        | true =>
          rw [serializeChars_true]
          simp +decide [parseJval, expectChars]
        | false =>
          rw [serializeChars_false]
          simp +decide [parseJval, expectChars]
      | num n =>
        rw [show serializeChars (.num n) = intRepr n by simp [serializeChars]]
        by_cases hn : n < 0
        · rw [intRepr, if_pos hn, List.cons_append]
          simp +decide [parseJval, parseNat_natRepr n.natAbs rest hrest]
          rw [abs_of_neg hn]
          omega
        · obtain ⟨d, t, ht, hd⟩ := natRepr_head n.natAbs
          have hne := isDigitChar_ne (isDigitChar_digitChar hd)
          rw [intRepr, if_neg hn, ht, List.cons_append]
          simp only [parseJval, if_neg hne.1, if_neg hne.2.1, if_neg hne.2.2.1,
            if_neg hne.2.2.2.1, if_neg hne.2.2.2.2.1, if_neg hne.2.2.2.2.2.1,
            if_neg hne.2.2.2.2.2.2]
          rw [← List.cons_append, ← ht, parseNat_natRepr _ _ hrest]
          have hni : ((n.natAbs : Nat) : Int) = n := by omega
          simp [hni]
      | str s =>
        rw [show serializeChars (.str s) = '"' :: (escapeChars s.data ++ ['"']) by
          simp [serializeChars, strLit]]
        rw [List.cons_append]
        have hX : (escapeChars s.data ++ ['"']) ++ rest
            = escapeChars s.data ++ '"' :: rest := by simp
        rw [hX]
        have hps := parseStrChars_escape s.data rest
          ((escapeChars s.data ++ '"' :: rest).length + 1)
          (by simp [List.length_append])
        simp +decide only [parseJval, parseStr]
        rw [hps]
        rfl
      | arr xs =>
        cases xs with
        | nil =>
          rw [show serializeChars (.arr []) = ['[', ']'] by simp [serializeChars]]
          simp +decide [parseJval, ifHeadThen]
        | cons x xs =>
          obtain ⟨c0, t0, ht0, hc0⟩ := serializeChars_head x
          have hne0 := startChar_ne hc0
          simp only [jsize, jsizeElems] at hj
          have hQ := (IH F (by omega)).2.1 x xs rest (by omega) hrest
          rw [show serializeChars (.arr (x :: xs))
              = '[' :: (serializeChars x ++ (serializeElems xs ++ [']'])) by
            simp [serializeChars]]
          rw [List.cons_append]
          have harg : (serializeChars x ++ (serializeElems xs ++ [']'])) ++ rest
              = serializeChars x ++ (serializeElems xs ++ ']' :: rest) := by simp
          rw [harg]
          simp +decide only [parseJval]
          rw [ht0, List.cons_append, ifHeadThen_neg hne0.1, ← List.cons_append, ← ht0,
            hQ]
          rfl
      | obj kvs =>
        cases kvs with
        | nil =>
          rw [show serializeChars (.obj []) = ['\x7b', '\x7d'] by simp [serializeChars]]
          simp +decide [parseJval, ifHeadThen]
        | cons kv kvs =>
          obtain ⟨k, v⟩ := kv
          simp only [jsize, jsizeFields] at hj
          have hR := (IH F (by omega)).2.2 k v kvs rest (by omega) hrest
          rw [show serializeChars (.obj ((k, v) :: kvs))
              = '\x7b' :: (serializeField (k, v) ++ (serializeFields kvs ++ ['\x7d'])) by
            simp [serializeChars]]
          rw [List.cons_append]
          have harg : (serializeField (k, v) ++ (serializeFields kvs ++ ['\x7d'])) ++ rest
              = '"' :: (escapeChars k.data ++ ('"' :: (':' :: (serializeChars v
                  ++ (serializeFields kvs ++ '\x7d' :: rest))))) := by
            simp [serializeField, strLit]
          rw [harg]
          simp +decide only [parseJval]
          rw [ifHeadThen_neg (by decide : '"' ≠ '\x7d'), hR]
          rfl
  · intro x xs rest hb hrest
    cases fuel with
    | zero => omega
    | succ F =>
      have hhead : headIsDigit (serializeElems xs ++ ']' :: rest) = false := by
        cases xs with
        | nil => simp +decide [serializeElems, headIsDigit]
        | cons y ys => simp +decide [serializeElems, headIsDigit]
      have hP := (IH F (by omega)).1 x (serializeElems xs ++ ']' :: rest)
        (by omega) hhead
      simp only [parseElems, hP]
      cases xs with
      | nil =>
        rw [show serializeElems ([] : List Jval) = [] by simp [serializeElems],
          List.nil_append]
        rw [ifHeadThen_neg (by decide : ']' ≠ ','), ifHeadThen_pos]
      | cons y ys =>
        simp only [jsizeElems] at hb
        rw [show serializeElems (y :: ys)
            = ',' :: (serializeChars y ++ serializeElems ys) by simp [serializeElems],
          List.cons_append, ifHeadThen_pos]
        have harg : (serializeChars y ++ serializeElems ys) ++ ']' :: rest
            = serializeChars y ++ (serializeElems ys ++ ']' :: rest) := by simp
        rw [harg]
        have hQ := (IH F (by omega)).2.1 y ys rest
          (by have := jsize_pos x; omega) hrest
        rw [hQ]
        rfl
  · intro k v kvs rest hb hrest
    cases fuel with
    | zero => omega
    | succ F =>
      have hstr := parseStrChars_escape k.data
        (':' :: (serializeChars v ++ (serializeFields kvs ++ '\x7d' :: rest)))
        ((escapeChars k.data ++ '"' :: (':' :: (serializeChars v
          ++ (serializeFields kvs ++ '\x7d' :: rest)))).length + 1)
        (by simp [List.length_append])
      have hhead : headIsDigit (serializeFields kvs ++ '\x7d' :: rest) = false := by
        cases kvs with
        | nil => simp +decide [serializeFields, headIsDigit]
        | cons kv2 kvs2 => simp +decide [serializeFields, headIsDigit]
      have hP := (IH F (by omega)).1 v (serializeFields kvs ++ '\x7d' :: rest)
        (by omega) hhead
      simp only [parseFields, parseStr, hstr, ifHeadThen_pos, hP]
      cases kvs with
      | nil =>
        rw [show serializeFields ([] : List (String × Jval)) = [] by
          simp [serializeFields], List.nil_append]
        rw [ifHeadThen_neg (by decide : '\x7d' ≠ ','), ifHeadThen_pos]
      | cons kv2 kvs2 =>
        obtain ⟨k2, v2⟩ := kv2
        simp only [jsizeFields] at hb
        rw [show serializeFields ((k2, v2) :: kvs2)
            = ',' :: (serializeField (k2, v2) ++ serializeFields kvs2) by
          simp [serializeFields], List.cons_append, ifHeadThen_pos]
        have harg : (serializeField (k2, v2) ++ serializeFields kvs2) ++ '\x7d' :: rest
            = '"' :: (escapeChars k2.data ++ ('"' :: (':' :: (serializeChars v2
                ++ (serializeFields kvs2 ++ '\x7d' :: rest))))) := by
          simp [serializeField, strLit]
        rw [harg]
        have hR := (IH F (by omega)).2.2 k2 v2 kvs2 rest
          (by have := jsize_pos v; omega) hrest
        rw [hR]
        rfl

theorem serialize_length_bound (n : Nat) :
    (∀ j, jsize j ≤ n → jsize j ≤ (serializeChars j).length) ∧
    (∀ xs, jsizeElems xs ≤ n → jsizeElems xs ≤ (serializeElems xs).length) ∧
    (∀ kvs, jsizeFields kvs ≤ n → jsizeFields kvs ≤ (serializeFields kvs).length) := by
  induction n using Nat.strong_induction_on with
  | _ n IH =>
  refine ⟨?_, ?_, ?_⟩
  · intro j hj
    cases j with
    | null => simp [jsize, serializeChars_null]
    | bool b =>
      cases b <;> simp [jsize, serializeChars_true, serializeChars_false]
    | num m =>
      have h1 : 1 ≤ (intRepr m).length := by
        rw [intRepr]
        by_cases hm : m < 0
        · simp [hm]
        · rw [if_neg hm]
          obtain ⟨d, t, ht, _⟩ := natRepr_head m.natAbs
          simp [ht]
      simp only [jsize, serializeChars]
      exact h1
    | str s =>
      simp [jsize, serializeChars, strLit]
    | arr xs =>
      cases xs with
      | nil => simp [jsize, jsizeElems, serializeChars]
      | cons x xs =>
        simp only [jsize, jsizeElems] at hj
        have h1 : jsize x ≤ (serializeChars x).length :=
          (IH (jsize x) (by omega)).1 x le_rfl
        have h2 : jsizeElems xs ≤ (serializeElems xs).length :=
          (IH (jsizeElems xs) (by omega)).2.1 xs le_rfl
        simp only [jsize, jsizeElems,
          show serializeChars (.arr (x :: xs))
              = '[' :: (serializeChars x ++ serializeElems xs) ++ [']'] by
            simp [serializeChars],
          List.length_append, List.length_cons, List.length_nil]
        omega
    | obj kvs =>
      cases kvs with
      | nil => simp [jsize, jsizeFields, serializeChars]
      | cons kv kvs =>
        obtain ⟨k, v⟩ := kv
        simp only [jsize, jsizeFields] at hj
        have h1 : jsize v ≤ (serializeChars v).length :=
          (IH (jsize v) (by omega)).1 v le_rfl
        have h2 : jsizeFields kvs ≤ (serializeFields kvs).length :=
          (IH (jsizeFields kvs) (by omega)).2.2 kvs le_rfl
        simp only [jsize, jsizeFields,
          show serializeChars (.obj ((k, v) :: kvs))
              = '\x7b' :: (serializeField (k, v) ++ serializeFields kvs) ++ ['\x7d'] by
            simp [serializeChars],
          show serializeField (k, v) = strLit k ++ ':' :: serializeChars v by
            simp [serializeField],
          strLit, List.length_append, List.length_cons, List.length_nil]
        omega
  · intro xs hxs
    cases xs with
    | nil => simp [jsizeElems, serializeElems]
    | cons x xs =>
      simp only [jsizeElems] at hxs
      have hp := jsize_pos x
      have h1 : jsize x ≤ (serializeChars x).length :=
        (IH (jsize x) (by omega)).1 x le_rfl
      have h2 : jsizeElems xs ≤ (serializeElems xs).length :=
        (IH (jsizeElems xs) (by omega)).2.1 xs le_rfl
      simp only [jsizeElems,
        show serializeElems (x :: xs)
            = ',' :: serializeChars x ++ serializeElems xs by simp [serializeElems],
        List.length_append, List.length_cons]
      omega
  · intro kvs hkvs
    cases kvs with
    | nil => simp [jsizeFields, serializeFields]
    | cons kv kvs =>
      obtain ⟨k, v⟩ := kv
      simp only [jsizeFields] at hkvs
      have hp := jsize_pos v
      have h1 : jsize v ≤ (serializeChars v).length :=
        (IH (jsize v) (by omega)).1 v le_rfl
      have h2 : jsizeFields kvs ≤ (serializeFields kvs).length :=
        (IH (jsizeFields kvs) (by omega)).2.2 kvs le_rfl
      simp only [jsizeFields,
        show serializeFields ((k, v) :: kvs)
            = ',' :: serializeField (k, v) ++ serializeFields kvs by
          simp [serializeFields],
        show serializeField (k, v) = strLit k ++ ':' :: serializeChars v by
          simp [serializeField],
        strLit, List.length_append, List.length_cons]
      omega

theorem jsize_le_length (j : Jval) : jsize j ≤ (serializeChars j).length :=
  (serialize_length_bound (jsize j)).1 j le_rfl

/-- Round trip of the modelled standard JSON codec: decoding the encoding of
any representable structured value recovers the value. -/
theorem jsonParse_serialize (j : Jval) : jsonParse (jsonSerialize j) = some j := by
  have hb := jsize_le_length j
  have h := (parse_serialize_aux ((serializeChars j).length + 1)).1 j []
    (by omega) rfl
  rw [List.append_nil] at h
  simp [jsonParse, jsonSerialize, h]

/-! ## Strings, URLs and headers

Helper functions modelling the pieces of the Go standard library used by the
request pipeline: strings.ToUpper, path/filepath.Base, net/url query
escaping and parsing, net/textproto header canonicalization and base64. -/

/-- Model of strings.ToUpper for the ASCII method names used here. -/
def goToUpper (s : String) : String := ⟨s.data.map Char.toUpper⟩

/-- Strip trailing path separators. -/
def dropTrailingSep (cs : List Char) : List Char :=
  (cs.reverse.dropWhile (fun c => c = '/')).reverse

/-- Characters after the last path separator. -/
def afterLastSep (cs : List Char) : List Char :=
  (cs.reverse.takeWhile (fun c => c ≠ '/')).reverse

/-- Model of path/filepath.Base: last element of the path, after removing
trailing separators; "." for the empty path, "/" if the path is all
separators. -/
def goFilepathBase (p : String) : String :=
  if p = "" then "."
  else
    let cs := afterLastSep (dropTrailingSep p.data)
    if cs = [] then "/" else ⟨cs⟩

/-- Upper-case hexadecimal digit, as used by percent-encoding. -/
def hexUpperChar (d : Nat) : Char :=
  if d < 10 then Char.ofNat (48 + d) else Char.ofNat (55 + d)

/-- Characters that net/url.QueryEscape leaves unescaped. -/
def isQueryUnreserved (c : Char) : Bool :=
  c.isAlphanum || c = '-' || c = '_' || c = '.' || c = '~'

/-- Model of net/url.QueryEscape on a single character (byte). -/
def queryEscapeChar (c : Char) : List Char :=
  if isQueryUnreserved c then [c]
  else if c = ' ' then ['+']
  else
    let b := c.toNat % 256
    ['%', hexUpperChar (b / 16), hexUpperChar (b % 16)]

/-- Model of net/url.QueryEscape. -/
def queryEscape (s : String) : String := ⟨s.data.flatMap queryEscapeChar⟩

/-- Values stored under a key of a url.Values map (empty if absent). -/
def valuesGet (q : List (String × List String)) (k : String) : List String :=
  match q with
  | [] => []
  | p :: t => if p.1 = k then p.2 else valuesGet t k

/-- Map update q[k] = vals of a url.Values map. -/
def valuesAssign (q : List (String × List String)) (k : String) (vals : List String) :
    List (String × List String) :=
  if q.any (fun p => p.1 = k) then
    q.map (fun p => if p.1 = k then (p.1, vals) else p)
  else q ++ [(k, vals)]

/-- url.Values.Set: replace the values under a key by a single value. -/
def valuesSet (q : List (String × List String)) (k v : String) :
    List (String × List String) :=
  valuesAssign q k [v]

/-- url.Values.Add: append one value under a key. -/
def valuesAdd (q : List (String × List String)) (k v : String) :
    List (String × List String) :=
  if q.any (fun p => p.1 = k) then
    q.map (fun p => if p.1 = k then (p.1, p.2 ++ [v]) else p)
  else q ++ [(k, [v])]

/-- Model of url.Values.Encode: keys iterated in sorted order, each value
percent-encoded as key=value, pairs joined with an ampersand. -/
def urlValuesEncode (q : List (String × List String)) : String :=
  let keys := (q.map Prod.fst).mergeSort (fun a b => a ≤ b)
  String.intercalate "&" (keys.flatMap (fun k =>
    (valuesGet q k).map (fun v => queryEscape k ++ "=" ++ queryEscape v)))

/-- Model of url.QueryUnescape; fails on malformed percent escapes. -/
def queryUnescape : List Char → Option (List Char)
  | [] => some []
  | '%' :: h1 :: h2 :: rest =>
    match hexVal h1, hexVal h2 with
    | some a, some b => (queryUnescape rest).map (fun l => Char.ofNat (a * 16 + b) :: l)
    | _, _ => none
  | '%' :: _ => none
  | '+' :: rest => (queryUnescape rest).map (fun l => ' ' :: l)
  | c :: rest => (queryUnescape rest).map (fun l => c :: l)

/-- Split a character list on a separator character. -/
def splitCharAux (sep : Char) : List Char → List Char → List (List Char)
  | [], acc => [acc.reverse]
  | c :: rest, acc =>
    if c = sep then acc.reverse :: splitCharAux sep rest []
    else splitCharAux sep rest (c :: acc)

/-- Cut a character list at the first occurrence of a separator. -/
def cutChar (sep : Char) : List Char → List Char → (List Char × List Char)
  | [], acc => (acc.reverse, [])
  | c :: rest, acc =>
    if c = sep then (acc.reverse, rest) else cutChar sep rest (c :: acc)

/-- Model of the query parsing performed by req.URL.Query(): split on
ampersands, cut each pair at the first equals sign, percent-decode both
sides, and silently drop empty or malformed pairs. -/
def parseQuery (raw : String) : List (String × List String) :=
  if raw = "" then []
  else
    (splitCharAux '&' raw.data []).foldl (fun acc part =>
      if part = [] then acc
      else
        let kv := cutChar '=' part []
        match queryUnescape kv.1, queryUnescape kv.2 with
        | some k, some v => valuesAdd acc ⟨k⟩ ⟨v⟩
        | _, _ => acc) []

/-- Headers are a finite map from header name to values, as an association
list in insertion order. -/
abbrev Headers := List (String × List String)

/-- Characters allowed in a MIME header token (net/textproto): letters,
digits, and the specials written here by code point. -/
def isTokenChar (c : Char) : Bool :=
  c.isAlphanum ||
    [33, 35, 36, 37, 38, 39, 42, 43, 45, 46, 94, 95, 96, 124, 126].contains c.toNat

/-- Title-case a header key: upper-case the first letter and every letter
following a hyphen, lower-case the rest. -/
def canonAux : Bool → List Char → List Char
  | _, [] => []
  | up, c :: cs => (if up then c.toUpper else c.toLower) :: canonAux (c = '-') cs

/-- Model of textproto.CanonicalMIMEHeaderKey: canonicalize keys made of
token characters, leave others unchanged. -/
def canonicalMIMEHeaderKey (s : String) : String :=
  if s.data.all isTokenChar then ⟨canonAux true s.data⟩ else s

/-- Raw map assignment h[key] = vals, as done by req.Header[key] = values. -/
def headerAssign (h : Headers) (key : String) (vals : List String) : Headers :=
  if h.any (fun p => p.1 = key) then
    h.map (fun p => if p.1 = key then (key, vals) else p)
  else h ++ [(key, vals)]

/-- Model of http.Header.Set: store a single value under the canonical key. -/
def headerSet (h : Headers) (key value : String) : Headers :=
  headerAssign h (canonicalMIMEHeaderKey key) [value]

/-- Model of http.Header.Del: remove the canonical key. -/
def headerDel (h : Headers) (key : String) : Headers :=
  h.filter (fun p => p.1 ≠ canonicalMIMEHeaderKey key)

/-- Look up the values stored under a header key. -/
def headerLookup (h : Headers) (key : String) : Option (List String) :=
  match h with
  | [] => none
  | p :: t => if p.1 = key then some p.2 else headerLookup t key

/-- One of the characters of the standard base64 alphabet. -/
def b64Char (i : Nat) : Char :=
  if i < 26 then Char.ofNat (65 + i)
  else if i < 52 then Char.ofNat (97 + (i - 26))
  else if i < 62 then Char.ofNat (48 + (i - 52))
  else if i = 62 then '+'
  else '/'

/-- Standard base64 with padding over a byte list. -/
def b64Aux : List Nat → List Char
  | [] => []
  | [a] => [b64Char (a / 4), b64Char (a % 4 * 16), '=', '=']
  | [a, b] => [b64Char (a / 4), b64Char (a % 4 * 16 + b / 16), b64Char (b % 16 * 4), '=']
  | a :: b :: c :: rest =>
    b64Char (a / 4) :: b64Char (a % 4 * 16 + b / 16) :: b64Char (b % 16 * 4 + c / 64)
      :: b64Char (c % 64) :: b64Aux rest

/-- Model of encoding/base64 StdEncoding on a byte string (each character
stands for one byte). -/
def base64Encode (s : String) : String :=
  ⟨b64Aux (s.data.map (fun c => c.toNat % 256))⟩

/-! ## Go values and the body resolver

GoVal models the dynamic shape of an interface value handed to WithBody and
friends, with one constructor per case distinguished by the type switch in
makeBodyReader.  User-defined types are modelled by Custom, which records
which of the relevant interfaces the value implements and what the
serializers produce for it. -/

/-- A caller-supplied io.Reader: reading it yields its full remaining
content, or an error. -/
structure ReaderRep where
  content : Except GoErr String
deriving Repr

/-- A user-defined Go type as seen by the resolver: its optional io.Reader,
fmt.Stringer and encoding.TextMarshaler implementations, the results of
json.Marshal and xml.Marshal on it, and its fmt.Sprint rendering (the
reflection-based fallback of toString, abstracted as a field). -/
structure Custom where
  asReader : Option ReaderRep
  asStringer : Option String
  asTextMarshaler : Option (Except GoErr String)
  jsonResult : Except GoErr String
  xmlResult : Except GoErr String
  sprint : String
deriving Repr

/-- Dynamic shapes of a request body value: a string, a byte slice, a
url.Values map, a user-defined type, a numeric or boolean scalar, or a
structured value (maps and slices) destined for JSON or XML encoding. -/
inductive GoVal where
  | str (s : String)
  | bytes (b : String)
  | values (q : List (String × List String))
  | custom (c : Custom)
  | intVal (n : Int)
  | boolVal (b : Bool)
  | jsonLike (j : Jval)

/-- JSON shape of a url.Values map: an object with sorted keys, each key
mapping to the array of its values. -/
def valuesToJval (q : List (String × List String)) : Jval :=
  .obj (((q.map Prod.fst).mergeSort (fun a b => a ≤ b)).map
    (fun k => (k, .arr ((valuesGet q k).map .str))))

/-- Model of json.Marshal on the modelled shapes.  Strings, scalars,
url.Values and structured values have the standard encoding; byte slices
encode as base64 strings; user-defined types carry their own result. -/
def goJsonMarshal : GoVal → Except GoErr String
  | .custom c => c.jsonResult
  | .str s => .ok (jsonSerialize (.str s))
  | .bytes b => .ok (jsonSerialize (.str (base64Encode b)))
  | .values q => .ok (jsonSerialize (valuesToJval q))
  | .intVal n => .ok (jsonSerialize (.num n))
  | .boolVal b => .ok (jsonSerialize (.bool b))
  | .jsonLike j => .ok (jsonSerialize j)

/-- Minimal XML escaping of text content. -/
def xmlEscape (s : String) : String :=
  ⟨s.data.flatMap (fun c =>
    if c = '&' then "&amp;".data
    else if c = '<' then "&lt;".data
    else if c = '>' then "&gt;".data
    else [c])⟩

/-- Model of xml.Marshal on the modelled shapes.  Only the result for
user-defined types is relied on; the remaining cases model the standard
element encodings of scalars and the unsupported-type failures for maps. -/
def goXmlMarshal : GoVal → Except GoErr String
  | .custom c => c.xmlResult
  | .str s => .ok ("<string>" ++ xmlEscape s ++ "</string>")
  | .bytes b =>
    .ok (String.join (b.data.map (fun c =>
      "<uint8>" ++ (⟨natRepr (c.toNat % 256)⟩ : String) ++ "</uint8>")))
  | .values _ => .error (.marshalError "xml: unsupported type: url.Values")
  | .intVal n => .ok ("<int64>" ++ (⟨intRepr n⟩ : String) ++ "</int64>")
  | .boolVal b => .ok ("<bool>" ++ (if b then "true" else "false") ++ "</bool>")
  | .jsonLike _ => .error (.marshalError "xml: unsupported type: map")

/-- Model of the toString helper of request.go: strings and byte slices
convert directly, Stringer implementations use String(), scalars print in
decimal or as true/false, and everything else falls back to the fmt.Sprint
rendering (the sprint field for user-defined types, the standard map
rendering for url.Values, and an abstract rendering for structured
values). -/
def goToString : GoVal → String
  | .str s => s
  | .bytes b => b
  | .custom c =>
    match c.asStringer with
    | some s => s
    | none => c.sprint
  | .intVal n => ⟨intRepr n⟩
  | .boolVal b => if b then "true" else "false"
  | .values q =>
    "map[" ++ String.intercalate " "
      (((q.map Prod.fst).mergeSort (fun a b => a ≤ b)).map
        (fun k => k ++ ":[" ++ String.intercalate " " (valuesGet q k) ++ "]")) ++ "]"
  | .jsonLike j => jsonSerialize j

/-- The readers makeBodyReader can return: strings.NewReader over a string,
bytes.NewReader over a byte slice, or the caller's reader passed through
unmodified. -/
inductive BodyReader where
  | stringReader (s : String)
  | bytesReader (b : String)
  | passthrough (r : ReaderRep)
deriving Repr

/-! ## The request object and its setters -/

/-- Client-level configuration shared by requests: common headers and the
client timeout.  The client HTTP transport itself is passed to send as an
explicit function argument. -/
structure Client where
  headers : Headers
  timeout : Int

/-- Result of a stat call: the base name the OS reports and whether the
target is a regular file. -/
structure FileInfo where
  name : String
  regular : Bool
deriving Repr, DecidableEq

/-- An already-open os.File handle: its name, the result of stat on it, and
the content remaining from its current read position. -/
structure OsFile where
  name : String
  statRes : Except GoErr FileInfo
  content : Except GoErr String

/-- A downstream uploaded file (multipart.FileHeader): its declared
filename and the outcome of opening it. -/
structure OpenedFile where
  content : Except GoErr String

structure FileHeader where
  filename : String
  openRes : Except GoErr OpenedFile

/-- The formDataFileReader wrapper type of request.go. -/
structure FormDataFileReader where
  name : String
  reader : ReaderRep

/-- A file attachment target, mirroring the dynamic shapes accepted by the
type switch in UploadBy: a filesystem path, an already-open os.File, a
previously received multipart.FileHeader, the reader wrapper added by
WithFormDataFileFromReader, or any other (invalid) value. -/
inductive FileTarget where
  | path (p : String)
  | osFile (f : OsFile)
  | fileHeader (h : FileHeader)
  | reader (fr : FormDataFileReader)
  | other

/-- One upload form entry (the formDataValue type of request.go): a plain
field value when file is absent, a file target otherwise. -/
structure FormDataValue where
  field : String
  file : Option FileTarget

/-- The request object: mirrors the fields of the request struct of
request.go that the body resolver and the upload assembler read and
write. -/
structure Req where
  uri : String
  method : String
  headers : Headers
  query : List (String × List String)
  timeout : Int
  body : Option GoVal
  bodyFormData : List (String × List FormDataValue)
  bodyEncoder : String
  bodyType : String

def withMethod (r : Req) (m : String) : Req := { r with method := m }

def withHeader (r : Req) (key value : String) : Req :=
  if value = "" then
    if r.headers.length > 0 then { r with headers := headerDel r.headers key } else r
  else { r with headers := headerSet r.headers key value }

def withContentType (r : Req) (ct : String) : Req :=
  withHeader r "Content-Type" ct

def withHeaders (r : Req) (hs : Headers) : Req := { r with headers := hs }

def withQuery (r : Req) (key value : String) : Req :=
  { r with query := valuesSet r.query key value }

def withQueryValue (r : Req) (key : String) (value : Option GoVal) : Req :=
  withQuery r key (match value with | none => "" | some v => goToString v)

def withQueries (r : Req) (qs : List (String × List String)) : Req :=
  { r with query := qs }

def withTimeout (r : Req) (t : Int) : Req := { r with timeout := t }

def withBody (r : Req) (body : Option GoVal) : Req :=
  { r with body := body, bodyEncoder := "", bodyType := "" }

def withJSONBody (r : Req) (body : Option GoVal) : Req :=
  { r with body := body, bodyEncoder := "json", bodyType := "application/json" }

def withRawJSONBody (r : Req) (body : String) : Req :=
  { r with body := some (.bytes body), bodyEncoder := "", bodyType := "application/json" }

def withXMLBody (r : Req) (body : Option GoVal) : Req :=
  { r with body := body, bodyEncoder := "xml", bodyType := "application/xml" }

def withRawXMLBody (r : Req) (body : String) : Req :=
  { r with body := some (.bytes body), bodyEncoder := "", bodyType := "application/xml" }

def withFormBody (r : Req) (body : List (String × List String)) : Req :=
  { r with
    body := some (.values body), bodyEncoder := "",
    bodyType := "application/x-www-form-urlencoded" }

/-! ## The body resolver -/

/-- The makeBodyReader method of request.go.  With no body present it
returns no reader; with a declared encoder it serializes with the matching
serializer, propagating the serializer error unchanged; otherwise it
inspects the dynamic shape of the value in the fixed order string, byte
slice, url.Values, io.Reader, fmt.Stringer, encoding.TextMarshaler and
fails with ErrInvalidRequestBody when none matches. -/
def makeBodyReader (r : Req) : Except GoErr (Option BodyReader) :=
  match r.body with
  | none => .ok none
  | some body =>
    if r.bodyEncoder ≠ "" then
      if r.bodyEncoder = "json" then
        match goJsonMarshal body with
        | .error e => .error e
        | .ok data => .ok (some (.bytesReader data))
      else if r.bodyEncoder = "xml" then
        match goXmlMarshal body with
        | .error e => .error e
        | .ok data => .ok (some (.bytesReader data))
      else .error (.invalidBodyEncoder r.bodyEncoder)
    else
      match body with
      | .str s => .ok (some (.stringReader s))
      | .bytes b => .ok (some (.bytesReader b))
      | .values q => .ok (some (.stringReader (urlValuesEncode q)))
      | .custom c =>
        match c.asReader with
        | some rd => .ok (some (.passthrough rd))
        | none =>
          match c.asStringer with
          | some s => .ok (some (.stringReader s))
          | none =>
            match c.asTextMarshaler with
            | some (.ok data) => .ok (some (.bytesReader data))
            | some (.error e) => .error e
            | none => .error .invalidRequestBody
      | .intVal _ => .error .invalidRequestBody
      | .boolVal _ => .error .invalidRequestBody
      | .jsonLike _ => .error .invalidRequestBody

/-! ## Sending

The transport and the filesystem are external collaborators, passed in as
functions; the events record the externally visible actions taken. -/

structure HttpCall where
  method : String
  url : String
  headers : Headers
  body : Option BodyReader
  timeout : Option Int

structure HttpResp where
  statusCode : Nat
  status : String
  headers : Headers
  body : String

/-- The HTTP transport collaborator (the http.Client the request uses,
whether the client one or the package default). -/
abbrev Transport := HttpCall → Except GoErr HttpResp

inductive Event where
  | statPath (p : String)
  | statHandle (name : String)
  | openPath (p : String)
  | closePath (p : String)
  | openHeader (name : String)
  | closeHeader (name : String)
  | closeHandle (name : String)
  | seekHandle (name : String)
  | writeField (key value : String)
  | writeFile (key filename content : String)
  | transportDo (call : HttpCall)

/-- Timeout selection of the send method: the request timeout when
positive, else the client timeout when positive, else none. -/
def getTimeout (c : Client) (r : Req) : Option Int :=
  if r.timeout > 0 then some r.timeout
  else if c.timeout > 0 then some c.timeout
  else none

/-- Split a request URI into the part before the query and the raw query. -/
def splitURL (uri : String) : String × String :=
  let kv := cutChar '?' uri.data []
  (⟨kv.1⟩, ⟨kv.2⟩)

/-- The send method of request.go: resolve the body (aborting on failure
before anything else happens), build the outgoing header map from the client
headers, the request headers and the forced content type, merge the request
query parameters into the URL query (new values overwriting same-named
existing ones), and hand the request to the transport.  Construction
failures of the underlying http.Request are not modelled. -/
def send (tr : Transport) (c : Client) (r : Req) (method : String) :
    Except GoErr (HttpCall × HttpResp) × List Event :=
  let timeout := getTimeout c r
  match makeBodyReader r with
  | .error e => (.error e, [])
  | .ok body =>
    let base := (splitURL r.uri).1
    let rawQuery := (splitURL r.uri).2
    let hdrs := r.headers.foldl (fun h p => headerAssign h p.1 p.2)
      (c.headers.foldl (fun h p => headerAssign h p.1 p.2) [])
    let hdrs := if r.bodyType ≠ "" then headerSet hdrs "Content-Type" r.bodyType else hdrs
    let rawQuery2 :=
      if r.query.length > 0 then
        if rawQuery = "" then urlValuesEncode r.query
        else urlValuesEncode (r.query.foldl (fun qs p => valuesAssign qs p.1 p.2)
          (parseQuery rawQuery))
      else rawQuery
    let call : HttpCall :=
      { method := method,
        url := base ++ (if rawQuery2 = "" then "" else "?" ++ rawQuery2),
        headers := hdrs, body := body, timeout := timeout }
    match tr call with
    | .error e => (.error e, [.transportDo call])
    | .ok resp => (.ok (call, resp), [.transportDo call])

/-- The SendBy method: reject an empty URL, upper-case the method, send. -/
def sendBy (tr : Transport) (c : Client) (r : Req) (method : String) :
    Except GoErr HttpResp × List Event :=
  if r.uri = "" then (.error .emptyRequestURL, [])
  else
    match send tr c r (goToUpper method) with
    | (.error e, evs) => (.error e, evs)
    | (.ok (_, resp), evs) => (.ok resp, evs)

/-! ## Upload form data -/

/-- Go map deletion delete(m, key). -/
def fdDelete (m : List (String × List FormDataValue)) (key : String) :
    List (String × List FormDataValue) :=
  m.filter (fun p => p.1 ≠ key)

/-- Go m[key] = append(m[key], v). -/
def fdAppend (m : List (String × List FormDataValue)) (key : String)
    (v : FormDataValue) : List (String × List FormDataValue) :=
  if m.any (fun p => p.1 = key) then
    m.map (fun p => if p.1 = key then (p.1, p.2 ++ [v]) else p)
  else m ++ [(key, [v])]

/-- Go map read m[key] (empty when absent). -/
def fdLookup (m : List (String × List FormDataValue)) (key : String) :
    List FormDataValue :=
  match m with
  | [] => []
  | p :: t => if p.1 = key then p.2 else fdLookup t key

/-- The withFormData method of request.go: a nil value deletes the key
(when the map is nonempty), a non-nil value is appended under the key. -/
def withFormData (r : Req) (key : String) (value : Option FormDataValue) : Req :=
  match value with
  | none =>
    if r.bodyFormData.length > 0 then
      { r with bodyFormData := fdDelete r.bodyFormData key }
    else r
  | some v => { r with bodyFormData := fdAppend r.bodyFormData key v }

/-- WithFormDataField: nil deletes the key, otherwise the value is
stringified and stored as a plain field entry. -/
def withFormDataField (r : Req) (key : String) (value : Option GoVal) : Req :=
  match value with
  | none => withFormData r key none
  | some v => withFormData r key (some { field := goToString v, file := none })

/-- WithFormDataFile: nil deletes the key, otherwise the target is stored
as a file entry. -/
def withFormDataFile (r : Req) (key : String) (value : Option FileTarget) : Req :=
  match value with
  | none => withFormData r key none
  | some v => withFormData r key (some { field := "", file := some v })

/-- WithFormDataFileFromReader: a nil reader deletes the key, otherwise the
reader and name are wrapped into a file entry. -/
def withFormDataFileFromReader (r : Req) (key name : String)
    (reader : Option ReaderRep) : Req :=
  match reader with
  | none => withFormData r key none
  | some rd =>
    withFormData r key (some { field := "", file := some (.reader ⟨name, rd⟩) })

/-- ClearFormData. -/
def clearFormData (r : Req) : Req := { r with bodyFormData := [] }

/-! ## The multipart assembler -/

/-- The filesystem collaborator: stat a path, open a path for reading. -/
structure FileData where
  content : Except GoErr String

structure FS where
  stat : String → Except GoErr FileInfo
  openFile : String → Except GoErr FileData

/-- One part of the multipart body. -/
inductive Part where
  | fieldPart (key value : String)
  | filePart (key filename content : String)
deriving Repr, DecidableEq

def Part.key : Part → String
  | .fieldPart k _ => k
  | .filePart k _ _ => k

/-- Process one form entry inside the assembly loop of UploadBy, returning
the part written and the trace of file-system actions taken.  An open event
records a successfully acquired handle (a failed os.Open acquires nothing);
a close event records its release.  Writes into the multipart.Writer itself
target the in-memory buffer and cannot fail.

  * a plain field is written with WriteField;
  * a path is stat'd first, rejected when not a regular file (the error
    naming the path), otherwise opened, streamed fully using the base name
    of the path as the filename, and the opened handle closed (by defer)
    whether or not the copy succeeds;
  * an open os.File handle is stat'd the same way (the error naming the
    handle name), then streamed from its current position using the base
    name of its name, with no seek and no close of the caller's handle;
  * a multipart.FileHeader is opened, streamed under the base name of its
    declared filename, and the opened file closed (by defer) whether or
    not the copy succeeds;
  * the formDataFileReader wrapper is streamed under the base name of its
    name, with nothing to close;
  * any other target fails with ErrInvalidUploadBody. -/
def writeFormEntry (fs : FS) (key : String) (v : FormDataValue) :
    Except GoErr Part × List Event :=
  match v.file with
  | none => (.ok (.fieldPart key v.field), [.writeField key v.field])
  | some t =>
    match t with
    | .path p =>
      match fs.stat p with
      | .error e => (.error e, [.statPath p])
      | .ok info =>
        if ¬ info.regular then (.error (.notRegularFile p), [.statPath p])
        else
          match fs.openFile p with
          | .error e => (.error e, [.statPath p])
          | .ok fd =>
            match fd.content with
            | .error e => (.error e, [.statPath p, .openPath p, .closePath p])
            | .ok data =>
              (.ok (.filePart key (goFilepathBase p) data),
               [.statPath p, .openPath p, .writeFile key (goFilepathBase p) data,
                .closePath p])
    | .osFile f =>
      match f.statRes with
      | .error e => (.error e, [.statHandle f.name])
      | .ok info =>
        if ¬ info.regular then (.error (.notRegularFile f.name), [.statHandle f.name])
        else
          match f.content with
          | .error e => (.error e, [.statHandle f.name])
          | .ok data =>
            (.ok (.filePart key (goFilepathBase f.name) data),
             [.statHandle f.name, .writeFile key (goFilepathBase f.name) data])
    | .fileHeader h =>
      match h.openRes with
      | .error e => (.error e, [])
      | .ok hf =>
        match hf.content with
        | .error e => (.error e, [.openHeader h.filename, .closeHeader h.filename])
        | .ok data =>
          (.ok (.filePart key (goFilepathBase h.filename) data),
           [.openHeader h.filename,
            .writeFile key (goFilepathBase h.filename) data,
            .closeHeader h.filename])
    | .reader fr =>
      match fr.reader.content with
      | .error e => (.error e, [])
      | .ok data =>
        (.ok (.filePart key (goFilepathBase fr.name) data),
         [.writeFile key (goFilepathBase fr.name) data])
    | .other => (.error .invalidUploadBody, [])

/-- The inner loop of UploadBy over the entries of one key, in insertion
order, aborting at the first failure. -/
def writeEntries (fs : FS) (key : String) :
    List FormDataValue → Except GoErr (List Part) × List Event
  | [] => (.ok [], [])
  | v :: vs =>
    match writeFormEntry fs key v with
    | (.error e, evs) => (.error e, evs)
    | (.ok p, evs) =>
      match writeEntries fs key vs with
      | (.error e, evs2) => (.error e, evs ++ evs2)
      | (.ok ps, evs2) => (.ok (p :: ps), evs ++ evs2)

/-- The outer loop of UploadBy over the (sorted) key list. -/
def assembleKeys (fs : FS) (fd : List (String × List FormDataValue)) :
    List String → Except GoErr (List Part) × List Event
  | [] => (.ok [], [])
  | k :: ks =>
    match writeEntries fs k (fdLookup fd k) with
    | (.error e, evs) => (.error e, evs)
    | (.ok ps, evs) =>
      match assembleKeys fs fd ks with
      | (.error e, evs2) => (.error e, evs ++ evs2)
      | (.ok ps2, evs2) => (.ok (ps ++ ps2), evs ++ evs2)

/-- The assembly phase of UploadBy: collect the keys of the form-data map,
sort them when there is more than one, then write every entry of every key
in order. -/
def assembleFormData (fs : FS) (fd : List (String × List FormDataValue)) :
    Except GoErr (List Part) × List Event :=
  let keys := fd.map Prod.fst
  let keys := if keys.length > 1 then keys.mergeSort (fun a b => a ≤ b) else keys
  assembleKeys fs fd keys

/-- Escaping of quotes and backslashes in multipart header values. -/
def escapeQuotes (s : String) : String :=
  ⟨s.data.flatMap (fun c => if c = '"' ∨ c = '\\' then ['\\', c] else [c])⟩

/-- Wire encoding of one multipart part. -/
def encodePart (boundary : String) (p : Part) : String :=
  match p with
  | .fieldPart key value =>
    "--" ++ boundary ++ "\r\nContent-Disposition: form-data; name=\""
      ++ escapeQuotes key ++ "\"\r\n\r\n" ++ value ++ "\r\n"
  | .filePart key filename content =>
    "--" ++ boundary ++ "\r\nContent-Disposition: form-data; name=\""
      ++ escapeQuotes key ++ "\"; filename=\"" ++ escapeQuotes filename
      ++ "\"\r\nContent-Type: application/octet-stream\r\n\r\n" ++ content ++ "\r\n"

/-- Wire encoding of the whole multipart body, terminated by the closing
boundary (multipart.Writer.Close). -/
def multipartEncode (boundary : String) (parts : List Part) : String :=
  String.join (parts.map (encodePart boundary)) ++ "--" ++ boundary ++ "--\r\n"

/-- The content type reported by multipart.Writer.FormDataContentType. -/
def formDataContentType (boundary : String) : String :=
  "multipart/form-data; boundary=" ++ boundary

/-- The assembled bytes.Buffer stored into the request body: it implements
io.Reader (which is how makeBodyReader later resolves it) and
fmt.Stringer. -/
def bufferCustom (s : String) : Custom :=
  { asReader := some { content := .ok s },
    asStringer := some s,
    asTextMarshaler := none,
    jsonResult := .ok "\x7b\x7d",
    xmlResult := .ok "<Buffer></Buffer>",
    sprint := s }

/-- The UploadBy method of request.go: reject an empty URL, then any method
other than POST and PUT (after upper-casing), then an empty form-data set;
assemble the multipart body, aborting without touching the request on any
assembly failure; on success store the assembled buffer, clear the encoder,
set the boundary content type and send.  The boundary token (randomly
generated by multipart.NewWriter) is an explicit argument. -/
def uploadBy (tr : Transport) (fs : FS) (boundary : String) (c : Client) (r : Req)
    (method : String) : Except GoErr HttpResp × Req × List Event :=
  if r.uri = "" then (.error .emptyRequestURL, r, [])
  else
    let m := goToUpper method
    if m ≠ "POST" ∧ m ≠ "PUT" then (.error (.unsupportedUploadMethod m), r, [])
    else if r.bodyFormData.length = 0 then (.error .emptyUploadBody, r, [])
    else
      match assembleFormData fs r.bodyFormData with
      | (.error e, evs) => (.error e, r, evs)
      | (.ok parts, evs) =>
        let r2 : Req := { r with
          body := some (.custom (bufferCustom (multipartEncode boundary parts))),
          bodyEncoder := "",
          bodyType := formDataContentType boundary }
        match send tr c r2 m with
        | (.error e, evs2) => (.error e, r2, evs ++ evs2)
        | (.ok (_, resp), evs2) => (.ok resp, r2, evs ++ evs2)

/-- The Upload method sends with POST. -/
def upload (tr : Transport) (fs : FS) (boundary : String) (c : Client) (r : Req) :
    Except GoErr HttpResp × Req × List Event :=
  uploadBy tr fs boundary c r "POST"

/-! ## Claim theorems -/

/-- C1: with no declared encoding, makeBodyReader inspects the body value's
dynamic shape in the fixed precedence order string, byte slice, url.Values,
io.Reader, fmt.Stringer, encoding.TextMarshaler, stopping at the first
match (a reader implementation wins over any Stringer or TextMarshaler one,
a Stringer over a TextMarshaler); a value matching none of these shapes —
in particular the integer 100, and boolean or structured values — fails
with ErrInvalidRequestBody and yields no reader. -/
theorem makeBodyReader_shape_precedence :
    (∀ r s, makeBodyReader (withBody r (some (.str s)))
        = .ok (some (.stringReader s))) ∧
    (∀ r b, makeBodyReader (withBody r (some (.bytes b)))
        = .ok (some (.bytesReader b))) ∧
    (∀ r q, makeBodyReader (withBody r (some (.values q)))
        = .ok (some (.stringReader (urlValuesEncode q)))) ∧
    (∀ r rd st tm jr xr sp,
        makeBodyReader (withBody r (some (.custom ⟨some rd, st, tm, jr, xr, sp⟩)))
          = .ok (some (.passthrough rd))) ∧
    (∀ r s tm jr xr sp,
        makeBodyReader (withBody r (some (.custom ⟨none, some s, tm, jr, xr, sp⟩)))
          = .ok (some (.stringReader s))) ∧
    (∀ r d jr xr sp,
        makeBodyReader (withBody r (some (.custom ⟨none, none, some (.ok d), jr, xr, sp⟩)))
          = .ok (some (.bytesReader d))) ∧
    (∀ r e jr xr sp,
        makeBodyReader (withBody r (some (.custom ⟨none, none, some (.error e), jr, xr, sp⟩)))
          = .error e) ∧
    (∀ r jr xr sp,
        makeBodyReader (withBody r (some (.custom ⟨none, none, none, jr, xr, sp⟩)))
          = .error .invalidRequestBody) ∧
    (∀ r n, makeBodyReader (withBody r (some (.intVal n))) = .error .invalidRequestBody) ∧
    (∀ r b, makeBodyReader (withBody r (some (.boolVal b))) = .error .invalidRequestBody) ∧
    (∀ r j, makeBodyReader (withBody r (some (.jsonLike j))) = .error .invalidRequestBody) ∧
    (∀ r, makeBodyReader (withBody r (some (.intVal 100))) = .error .invalidRequestBody) :=
  ⟨fun _ _ => rfl, fun _ _ => rfl, fun _ _ => rfl, fun _ _ _ _ _ _ _ => rfl,
   fun _ _ _ _ _ _ => rfl, fun _ _ _ _ _ => rfl, fun _ _ _ _ _ => rfl,
   fun _ _ _ _ => rfl, fun _ _ => rfl, fun _ _ => rfl, fun _ _ => rfl, fun _ => rfl⟩

/-- C8: resolving a structured value with declared JSON encoding produces
exactly the bytes of its standard JSON encoding (json.Marshal), and
standard JSON decoding of those bytes recovers a value equal to the
original. -/
theorem json_body_round_trip :
    ∀ r j, makeBodyReader (withJSONBody r (some (.jsonLike j)))
        = .ok (some (.bytesReader (jsonSerialize j)))
      ∧ jsonParse (jsonSerialize j) = some j :=
  fun _ j => ⟨rfl, jsonParse_serialize j⟩

/-- C3: with a non-empty URL and a supported (upper-cased) method, an
upload with an empty form-data field set fails with ErrEmptyUploadBody, the
request is untouched and the event trace is empty: nothing is stat'd,
opened or written and no response is produced. -/
theorem uploadBy_empty_formdata (tr : Transport) (fs : FS) (boundary : String)
    (c : Client) (r : Req) (method : String) (hu : r.uri ≠ "")
    (hm : goToUpper method = "POST" ∨ goToUpper method = "PUT")
    (hfd : r.bodyFormData = []) :
    uploadBy tr fs boundary c r method = (.error .emptyUploadBody, r, []) := by
  unfold uploadBy
  rw [if_neg hu]
  rcases hm with hm | hm <;>
    rw [hm] <;>
    simp [hfd]

/-- Witness for C3 at a concrete request. -/
theorem uploadBy_empty_formdata_witness :
    uploadBy (fun _ => .ok ⟨200, "200 OK", [], ""⟩)
        ⟨fun _ => .error (.ioError "unused"), fun _ => .error (.ioError "unused")⟩
        "bnd" ⟨[], 0⟩ ⟨"http://host/up", "", [], [], 0, none, [], "", ""⟩ "post"
      = (.error .emptyUploadBody, ⟨"http://host/up", "", [], [], 0, none, [], "", ""⟩, []) :=
  uploadBy_empty_formdata _ _ _ _ _ _ (by decide) (Or.inl (by decide)) rfl

/-- C9: UploadBy upper-cases the given method and accepts only POST and
PUT.  An empty URL is rejected first; with a non-empty URL any other method
fails with the unsupported-upload-method error naming the upper-cased
method, with an empty event trace and the request untouched, for every
form-data set (so before the form-data set is examined); and a supported
method with a non-empty URL proceeds to the form-data emptiness check. -/
theorem uploadBy_method_check :
    (∀ tr fs boundary c r method, r.uri = "" →
        uploadBy tr fs boundary c r method = (.error .emptyRequestURL, r, [])) ∧
    (∀ tr fs boundary c r method, r.uri ≠ "" →
        goToUpper method ≠ "POST" → goToUpper method ≠ "PUT" →
        uploadBy tr fs boundary c r method
          = (.error (.unsupportedUploadMethod (goToUpper method)), r, [])) ∧
    (∀ tr fs boundary c r method, r.uri ≠ "" →
        (goToUpper method = "POST" ∨ goToUpper method = "PUT") →
        r.bodyFormData = [] →
        uploadBy tr fs boundary c r method = (.error .emptyUploadBody, r, [])) := by
  refine ⟨?_, ?_, ?_⟩
  · intro tr fs boundary c r method hu
    unfold uploadBy
    rw [if_pos hu]
  · intro tr fs boundary c r method hu h1 h2
    unfold uploadBy
    rw [if_neg hu, if_pos ⟨h1, h2⟩]
  · intro tr fs boundary c r method hu hm hfd
    unfold uploadBy
    rw [if_neg hu]
    rcases hm with hm | hm <;>
      rw [hm] <;>
      simp [hfd]

/-- Witness for C9: the lower-case method get is rejected as GET after the
URL check, independently of the form data; an empty URL wins; and PUT is
accepted past the method check. -/
theorem uploadBy_method_check_witness :
    (uploadBy (fun _ => .ok ⟨200, "200 OK", [], ""⟩)
        ⟨fun _ => .error (.ioError "unused"), fun _ => .error (.ioError "unused")⟩
        "bnd" ⟨[], 0⟩ ⟨"http://host/up", "", [], [], 0, none,
          [("k", [⟨"v", none⟩])], "", ""⟩ "get"
      = (.error (.unsupportedUploadMethod "GET"), ⟨"http://host/up", "", [], [], 0, none,
          [("k", [⟨"v", none⟩])], "", ""⟩, [])) ∧
    (uploadBy (fun _ => .ok ⟨200, "200 OK", [], ""⟩)
        ⟨fun _ => .error (.ioError "unused"), fun _ => .error (.ioError "unused")⟩
        "bnd" ⟨[], 0⟩ ⟨"", "", [], [], 0, none, [], "", ""⟩ "get"
      = (.error .emptyRequestURL, ⟨"", "", [], [], 0, none, [], "", ""⟩, [])) ∧
    (uploadBy (fun _ => .ok ⟨200, "200 OK", [], ""⟩)
        ⟨fun _ => .error (.ioError "unused"), fun _ => .error (.ioError "unused")⟩
        "bnd" ⟨[], 0⟩ ⟨"http://host/up", "", [], [], 0, none, [], "", ""⟩ "pUt"
      = (.error .emptyUploadBody, ⟨"http://host/up", "", [], [], 0, none, [], "", ""⟩, [])) :=
  ⟨uploadBy_method_check.2.1 _ _ _ _ _ _ (by decide) (by decide) (by decide),
   uploadBy_method_check.1 _ _ _ _ _ _ rfl,
   uploadBy_method_check.2.2 _ _ _ _ _ _ (by decide) (Or.inr (by decide)) rfl⟩

/-- C5: for a file entry given as a filesystem path, the path is stat'd
first (the trace begins with the stat whatever happens); a stat error
propagates; a target that is not a regular file fails with the
not-a-regular-file error naming the path; otherwise the file is opened and
its full contents are streamed as the part body under the base name of the
path, and the handle that was opened is closed before returning, on the
success path and on the read-failure path alike. -/
theorem writeFormEntry_path_discipline :
    (∀ fs key fld p,
        ((writeFormEntry fs key ⟨fld, some (.path p)⟩).2).head? = some (.statPath p)) ∧
    (∀ fs key fld p e, fs.stat p = .error e →
        writeFormEntry fs key ⟨fld, some (.path p)⟩ = (.error e, [.statPath p])) ∧
    (∀ fs key fld p info, fs.stat p = .ok info → info.regular = false →
        writeFormEntry fs key ⟨fld, some (.path p)⟩
          = (.error (.notRegularFile p), [.statPath p])) ∧
    (∀ fs key fld p info fd data, fs.stat p = .ok info → info.regular = true →
        fs.openFile p = .ok fd → fd.content = .ok data →
        writeFormEntry fs key ⟨fld, some (.path p)⟩
          = (.ok (.filePart key (goFilepathBase p) data),
             [.statPath p, .openPath p, .writeFile key (goFilepathBase p) data,
              .closePath p])) ∧
    (∀ fs key fld p info fd e, fs.stat p = .ok info → info.regular = true →
        fs.openFile p = .ok fd → fd.content = .error e →
        writeFormEntry fs key ⟨fld, some (.path p)⟩
          = (.error e, [.statPath p, .openPath p, .closePath p])) ∧
    (∀ fs key fld p,
        Event.openPath p ∈ (writeFormEntry fs key ⟨fld, some (.path p)⟩).2 →
        Event.closePath p ∈ (writeFormEntry fs key ⟨fld, some (.path p)⟩).2) := by
  refine ⟨?_, ?_, ?_, ?_, ?_, ?_⟩
  · intro fs key fld p
    unfold writeFormEntry
    cases hs : fs.stat p with
    | error e => simp [hs]
    | ok info =>
      cases hreg : info.regular with
      | false => simp [hs, hreg]
      | true =>
        cases ho : fs.openFile p with
        | error e => simp [hs, hreg, ho]
        | ok fd => cases hc : fd.content <;> simp [hs, hreg, ho, hc]
  · intro fs key fld p e hs
    simp [writeFormEntry, hs]
  · intro fs key fld p info hs hreg
    simp [writeFormEntry, hs, hreg]
  · intro fs key fld p info fd data hs hreg ho hc
    simp [writeFormEntry, hs, hreg, ho, hc]
  · intro fs key fld p info fd e hs hreg ho hc
    simp [writeFormEntry, hs, hreg, ho, hc]
  · intro fs key fld p
    unfold writeFormEntry
    cases hs : fs.stat p with
    | error e => simp [hs]
    | ok info =>
      cases hreg : info.regular with
      | false => simp [hs, hreg]
      | true =>
        cases ho : fs.openFile p with
        | error e => simp [hs, hreg, ho]
        | ok fd => cases hc : fd.content <;> simp [hs, hreg, ho, hc]

/-- Witness for C5 on a one-file filesystem: a directory is rejected after
the stat naming the path, and a regular file is streamed under its base
name with the opened handle closed. -/
theorem writeFormEntry_path_discipline_witness :
    (writeFormEntry
        ⟨fun p => .ok ⟨p, false⟩, fun _ => .error (.ioError "unused")⟩
        "k" ⟨"", some (.path "/tmp/dir")⟩
      = (.error (.notRegularFile "/tmp/dir"), [.statPath "/tmp/dir"])) ∧
    (writeFormEntry
        ⟨fun _ => .ok ⟨"f.txt", true⟩, fun _ => .ok ⟨.ok "DATA"⟩⟩
        "k" ⟨"", some (.path "/tmp/f.txt")⟩
      = (.ok (.filePart "k" "f.txt" "DATA"),
         [.statPath "/tmp/f.txt", .openPath "/tmp/f.txt",
          .writeFile "k" "f.txt" "DATA", .closePath "/tmp/f.txt"])) ∧
    (writeFormEntry
        ⟨fun _ => .ok ⟨"f.txt", true⟩, fun _ => .ok ⟨.error (.ioError "read failed")⟩⟩
        "k" ⟨"", some (.path "/tmp/f.txt")⟩
      = (.error (.ioError "read failed"),
         [.statPath "/tmp/f.txt", .openPath "/tmp/f.txt", .closePath "/tmp/f.txt"])) :=
  ⟨writeFormEntry_path_discipline.2.2.1 _ _ _ _ _ rfl rfl,
   by
    have h := writeFormEntry_path_discipline.2.2.2.1
      ⟨fun _ => .ok ⟨"f.txt", true⟩, fun _ => .ok ⟨.ok "DATA"⟩⟩
      "k" "" "/tmp/f.txt" ⟨"f.txt", true⟩ ⟨.ok "DATA"⟩ "DATA" rfl rfl rfl rfl
    simpa using h,
   by
    have h := writeFormEntry_path_discipline.2.2.2.2.1
      ⟨fun _ => .ok ⟨"f.txt", true⟩, fun _ => .ok ⟨.error (.ioError "read failed")⟩⟩
      "k" "" "/tmp/f.txt" ⟨"f.txt", true⟩ ⟨.error (.ioError "read failed")⟩
      (.ioError "read failed") rfl rfl rfl rfl
    simpa using h⟩

/-- C7: for a file entry given as an already-open os.File handle, the
handle is stat'd and non-regular targets are rejected the same way as for
a path (the error naming the handle's name); on success the contents
remaining from the handle's current read position are streamed in full as
the part body under the base name of the handle's name; and the trace
contains no seek and no close of the caller's handle (nor any other close)
in any outcome. -/
theorem writeFormEntry_handle_discipline :
    (∀ fs key fld f e, f.statRes = .error e →
        writeFormEntry fs key ⟨fld, some (.osFile f)⟩
          = (.error e, [.statHandle f.name])) ∧
    (∀ fs key fld f info, f.statRes = .ok info → info.regular = false →
        writeFormEntry fs key ⟨fld, some (.osFile f)⟩
          = (.error (.notRegularFile f.name), [.statHandle f.name])) ∧
    (∀ fs key fld f info data, f.statRes = .ok info → info.regular = true →
        f.content = .ok data →
        writeFormEntry fs key ⟨fld, some (.osFile f)⟩
          = (.ok (.filePart key (goFilepathBase f.name) data),
             [.statHandle f.name, .writeFile key (goFilepathBase f.name) data])) ∧
    (∀ fs key fld f info e, f.statRes = .ok info → info.regular = true →
        f.content = .error e →
        writeFormEntry fs key ⟨fld, some (.osFile f)⟩
          = (.error e, [.statHandle f.name])) ∧
    (∀ fs key fld f nm,
        Event.closeHandle nm ∉ (writeFormEntry fs key ⟨fld, some (.osFile f)⟩).2 ∧
        Event.seekHandle nm ∉ (writeFormEntry fs key ⟨fld, some (.osFile f)⟩).2 ∧
        Event.closePath nm ∉ (writeFormEntry fs key ⟨fld, some (.osFile f)⟩).2 ∧
        Event.closeHeader nm ∉ (writeFormEntry fs key ⟨fld, some (.osFile f)⟩).2) := by
  refine ⟨?_, ?_, ?_, ?_, ?_⟩
  · intro fs key fld f e hs
    simp [writeFormEntry, hs]
  · intro fs key fld f info hs hreg
    simp [writeFormEntry, hs, hreg]
  · intro fs key fld f info data hs hreg hc
    simp [writeFormEntry, hs, hreg, hc]
  · intro fs key fld f info e hs hreg hc
    simp [writeFormEntry, hs, hreg, hc]
  · intro fs key fld f nm
    unfold writeFormEntry
    cases hs : f.statRes with
    | error e => simp [hs]
    | ok info =>
      cases hreg : info.regular with
      | false => simp [hs, hreg]
      | true => cases hc : f.content <;> simp [hs, hreg, hc]

/-- Witness for C7: a handle positioned mid-file streams exactly its
remaining content under the base name of its name, and a non-regular
handle is rejected naming the handle. -/
theorem writeFormEntry_handle_discipline_witness :
    (writeFormEntry
        ⟨fun _ => .error (.ioError "unused"), fun _ => .error (.ioError "unused")⟩
        "k" ⟨"", some (.osFile ⟨"/var/log/app.log", .ok ⟨"app.log", true⟩, .ok "TAIL"⟩)⟩
      = (.ok (.filePart "k" "app.log" "TAIL"),
         [.statHandle "/var/log/app.log", .writeFile "k" "app.log" "TAIL"])) ∧
    (writeFormEntry
        ⟨fun _ => .error (.ioError "unused"), fun _ => .error (.ioError "unused")⟩
        "k" ⟨"", some (.osFile ⟨"/var", .ok ⟨"var", false⟩, .ok ""⟩)⟩
      = (.error (.notRegularFile "/var"), [.statHandle "/var"])) ∧
    (∀ nm, Event.closeHandle nm ∉ (writeFormEntry
        ⟨fun _ => .error (.ioError "unused"), fun _ => .error (.ioError "unused")⟩
        "k" ⟨"", some (.osFile ⟨"/var/log/app.log", .ok ⟨"app.log", true⟩, .ok "TAIL"⟩)⟩).2) :=
  ⟨by
    have h := writeFormEntry_handle_discipline.2.2.1
      ⟨fun _ => .error (.ioError "unused"), fun _ => .error (.ioError "unused")⟩
      "k" "" ⟨"/var/log/app.log", .ok ⟨"app.log", true⟩, .ok "TAIL"⟩
      ⟨"app.log", true⟩ "TAIL" rfl rfl rfl
    simpa using h,
   writeFormEntry_handle_discipline.2.1 _ _ _ _ _ rfl rfl,
   fun nm => (writeFormEntry_handle_discipline.2.2.2.2 _ _ _ _ nm).1⟩

theorem fdLookup_delete_self (m : List (String × List FormDataValue)) (k : String) :
    fdLookup (fdDelete m k) k = [] := by
  induction m with
  | nil => rfl
  | cons p t ih =>
    by_cases hp : p.1 = k
    · simpa [fdDelete, hp] using ih
    · simpa [fdDelete, fdLookup, hp] using ih

theorem fdLookup_delete_ne (m : List (String × List FormDataValue)) (k k' : String)
    (h : k' ≠ k) : fdLookup (fdDelete m k) k' = fdLookup m k' := by
  induction m with
  | nil => rfl
  | cons p t ih =>
    by_cases hp : p.1 = k
    · have hpk' : p.1 ≠ k' := by rw [hp]; exact fun hx => h hx.symm
      rw [show fdDelete (p :: t) k = fdDelete t k by simp [fdDelete, hp]]
      rw [ih, show fdLookup (p :: t) k' = fdLookup t k' by simp [fdLookup, hpk']]
    · rw [show fdDelete (p :: t) k = p :: fdDelete t k by simp [fdDelete, hp]]
      by_cases hp' : p.1 = k'
      · simp [fdLookup, hp']
      · simp [fdLookup, hp', ih]

theorem withFormData_none_lookup (r : Req) (key : String) :
    fdLookup (withFormData r key none).bodyFormData key = [] ∧
    ∀ k', k' ≠ key →
      fdLookup (withFormData r key none).bodyFormData k'
        = fdLookup r.bodyFormData k' := by
  unfold withFormData
  by_cases hm : r.bodyFormData.length > 0
  · rw [if_pos hm]
    exact ⟨fdLookup_delete_self _ _, fun k' h => fdLookup_delete_ne _ _ _ h⟩
  · rw [if_neg hm]
    have hnil : r.bodyFormData = [] := by
      cases hq : r.bodyFormData with
      | nil => rfl
      | cons a t => rw [hq] at hm; simp at hm
    exact ⟨by rw [hnil]; rfl, fun k' _ => rfl⟩

/-- C10: calling WithFormDataField or WithFormDataFile with a nil value, or
WithFormDataFileFromReader with a nil reader, adds nothing: every entry
previously stored under the given key is deleted and the entries of every
other key are unchanged. -/
theorem withFormData_nil_deletes (r : Req) (key name : String) :
    (fdLookup (withFormDataField r key none).bodyFormData key = [] ∧
      ∀ k', k' ≠ key →
        fdLookup (withFormDataField r key none).bodyFormData k'
          = fdLookup r.bodyFormData k') ∧
    (fdLookup (withFormDataFile r key none).bodyFormData key = [] ∧
      ∀ k', k' ≠ key →
        fdLookup (withFormDataFile r key none).bodyFormData k'
          = fdLookup r.bodyFormData k') ∧
    (fdLookup (withFormDataFileFromReader r key name none).bodyFormData key = [] ∧
      ∀ k', k' ≠ key →
        fdLookup (withFormDataFileFromReader r key name none).bodyFormData k'
          = fdLookup r.bodyFormData k') :=
  ⟨withFormData_none_lookup r key, withFormData_none_lookup r key,
   withFormData_none_lookup r key⟩

/-- Witness for C10 on a two-key form-data set: deleting key a empties a
and leaves key b untouched, through all three setters. -/
theorem withFormData_nil_deletes_witness :
    (fdLookup (withFormDataField
        ⟨"u", "", [], [], 0, none,
          [("a", [⟨"v1", none⟩]), ("b", [⟨"v2", none⟩])], "", ""⟩
        "a" none).bodyFormData "a" = [] ∧
      fdLookup (withFormDataField
        ⟨"u", "", [], [], 0, none,
          [("a", [⟨"v1", none⟩]), ("b", [⟨"v2", none⟩])], "", ""⟩
        "a" none).bodyFormData "b" = [⟨"v2", none⟩]) ∧
    fdLookup (withFormDataFileFromReader
        ⟨"u", "", [], [], 0, none,
          [("a", [⟨"v1", none⟩]), ("b", [⟨"v2", none⟩])], "", ""⟩
        "a" "nm" none).bodyFormData "a" = [] :=
  ⟨⟨(withFormData_nil_deletes
      ⟨"u", "", [], [], 0, none,
        [("a", [⟨"v1", none⟩]), ("b", [⟨"v2", none⟩])], "", ""⟩ "a" "nm").1.1,
    ((withFormData_nil_deletes
      ⟨"u", "", [], [], 0, none,
        [("a", [⟨"v1", none⟩]), ("b", [⟨"v2", none⟩])], "", ""⟩ "a" "nm").1.2
      "b" (by decide)).trans rfl⟩,
   (withFormData_nil_deletes
      ⟨"u", "", [], [], 0, none,
        [("a", [⟨"v1", none⟩]), ("b", [⟨"v2", none⟩])], "", ""⟩ "a" "nm").2.2.1⟩

theorem headerLookup_assign (h : Headers) (k : String) (vals : List String) :
    headerLookup (headerAssign h k vals) k = some vals := by
  induction h with
  | nil => simp [headerAssign, headerLookup]
  | cons p t ih =>
    by_cases hp : p.1 = k
    · rw [show headerAssign (p :: t) k vals
          = (k, vals) :: t.map (fun q => if q.1 = k then (k, vals) else q) by
        simp [headerAssign, hp]]
      simp [headerLookup]
    · by_cases ht : t.any (fun q => q.1 = k)
      · rw [show headerAssign (p :: t) k vals
            = p :: t.map (fun q => if q.1 = k then (k, vals) else q) by
          simp [headerAssign, hp, ht]]
        rw [show headerLookup
              (p :: t.map (fun q => if q.1 = k then (k, vals) else q)) k
            = headerLookup (t.map (fun q => if q.1 = k then (k, vals) else q)) k by
          simp [headerLookup, hp]]
        have hx := ih
        rw [show headerAssign t k vals
            = t.map (fun q => if q.1 = k then (k, vals) else q) by
          simp [headerAssign, ht]] at hx
        exact hx
      · rw [show headerAssign (p :: t) k vals = p :: (t ++ [(k, vals)]) by
          simp [headerAssign, hp, ht]]
        rw [show headerLookup (p :: (t ++ [(k, vals)])) k
            = headerLookup (t ++ [(k, vals)]) k by simp [headerLookup, hp]]
        have hx := ih
        rw [show headerAssign t k vals = t ++ [(k, vals)] by
          simp [headerAssign, ht]] at hx
        exact hx

/-- When a request carries a known body type and send reaches the
transport, the call made has its Content-Type header forced to exactly that
body type (Header.Set runs after all header assignments). -/
theorem send_content_type (tr : Transport) (c : Client) (r : Req) (method : String)
    (call : HttpCall) (resp : HttpResp) (evs : List Event)
    (hbt : r.bodyType ≠ "")
    (h : send tr c r method = (.ok (call, resp), evs)) :
    headerLookup call.headers "Content-Type" = some [r.bodyType] := by
  unfold send at h
  cases hmb : makeBodyReader r with
  | error e => rw [hmb] at h; simp at h
  | ok body =>
    rw [hmb] at h
    simp only at h
    set call0 : HttpCall :=
      { method := method,
        url := (splitURL r.uri).1 ++
          (if (if r.query.length > 0 then
                if (splitURL r.uri).2 = "" then urlValuesEncode r.query
                else urlValuesEncode (r.query.foldl
                  (fun qs p => valuesAssign qs p.1 p.2) (parseQuery (splitURL r.uri).2))
              else (splitURL r.uri).2) = "" then ""
           else "?" ++ (if r.query.length > 0 then
                if (splitURL r.uri).2 = "" then urlValuesEncode r.query
                else urlValuesEncode (r.query.foldl
                  (fun qs p => valuesAssign qs p.1 p.2) (parseQuery (splitURL r.uri).2))
              else (splitURL r.uri).2)),
        headers := if r.bodyType ≠ "" then
            headerSet (r.headers.foldl (fun hh p => headerAssign hh p.1 p.2)
              (c.headers.foldl (fun hh p => headerAssign hh p.1 p.2) []))
              "Content-Type" r.bodyType
          else r.headers.foldl (fun hh p => headerAssign hh p.1 p.2)
              (c.headers.foldl (fun hh p => headerAssign hh p.1 p.2) []),
        body := body,
        timeout := getTimeout c r } with hcall0
    cases htr : tr call0 with
    | error e =>
      rw [htr] at h
      simp at h
    | ok resp2 =>
      rw [htr] at h
      simp only [Prod.mk.injEq, Except.ok.injEq] at h
      obtain ⟨⟨hc, _⟩, _⟩ := h
      rw [← hc, hcall0]
      simp only [if_pos hbt]
      rw [show headerSet (r.headers.foldl (fun hh p => headerAssign hh p.1 p.2)
            (c.headers.foldl (fun hh p => headerAssign hh p.1 p.2) []))
            "Content-Type" r.bodyType
          = headerAssign (r.headers.foldl (fun hh p => headerAssign hh p.1 p.2)
              (c.headers.foldl (fun hh p => headerAssign hh p.1 p.2) []))
              "Content-Type" [r.bodyType] by
        rw [headerSet, show canonicalMIMEHeaderKey "Content-Type" = "Content-Type"
          from by decide]]
      exact headerLookup_assign _ _ _

/-- C4: when a body with declared JSON or XML encoding fails to serialize,
makeBodyReader propagates the serializer's error (the underlying cause)
unchanged; and independently of the value's shape, declaring the encoding
stores the forced content type on the request and every request that
reaches the transport carries exactly that Content-Type header. -/
theorem declared_encoding_behavior :
    (∀ r v e, goJsonMarshal v = .error e →
        makeBodyReader (withJSONBody r (some v)) = .error e) ∧
    (∀ r v e, goXmlMarshal v = .error e →
        makeBodyReader (withXMLBody r (some v)) = .error e) ∧
    (∀ r v, (withJSONBody r v).bodyType = "application/json") ∧
    (∀ r v, (withXMLBody r v).bodyType = "application/xml") ∧
    (∀ tr c r v method call resp evs,
        send tr c (withJSONBody r v) method = (.ok (call, resp), evs) →
        headerLookup call.headers "Content-Type" = some ["application/json"]) ∧
    (∀ tr c r v method call resp evs,
        send tr c (withXMLBody r v) method = (.ok (call, resp), evs) →
        headerLookup call.headers "Content-Type" = some ["application/xml"]) := by
  refine ⟨?_, ?_, fun _ _ => rfl, fun _ _ => rfl, ?_, ?_⟩
  · intro r v e hm
    simp [makeBodyReader, withJSONBody, hm]
  · intro r v e hm
    simp [makeBodyReader, withXMLBody, hm]
  · intro tr c r v method call resp evs h
    have hne : ¬ (("application/json" : String) = "") := by decide
    exact send_content_type tr c (withJSONBody r v) method call resp evs
      (fun hx => hne hx) h
  · intro tr c r v method call resp evs h
    have hne : ¬ (("application/xml" : String) = "") := by decide
    exact send_content_type tr c (withXMLBody r v) method call resp evs
      (fun hx => hne hx) h

/-- Witness for C4: a value whose json.Marshal and xml.Marshal fail
propagates exactly the underlying cause, and a concrete successful send of
a JSON body carries Content-Type application/json. -/
theorem declared_encoding_behavior_witness :
    (makeBodyReader (withJSONBody ⟨"http://h/p", "", [], [], 0, none, [], "", ""⟩
        (some (.custom ⟨none, none, none, .error (.marshalError "json boom"),
          .error (.marshalError "xml boom"), ""⟩)))
      = .error (.marshalError "json boom")) ∧
    (makeBodyReader (withXMLBody ⟨"http://h/p", "", [], [], 0, none, [], "", ""⟩
        (some (.custom ⟨none, none, none, .error (.marshalError "json boom"),
          .error (.marshalError "xml boom"), ""⟩)))
      = .error (.marshalError "xml boom")) ∧
    ((withJSONBody ⟨"http://h/p", "", [], [], 0, none, [], "", ""⟩
        (some (.jsonLike .null))).bodyType = "application/json") ∧
    (∃ call resp evs,
      send (fun cl => .ok ⟨200, "200 OK", [], ""⟩) ⟨[], 0⟩
          (withJSONBody ⟨"http://h/p", "", [], [], 0, none, [], "", ""⟩
            (some (.custom ⟨none, none, none, .ok "null", .ok "<x/>", ""⟩)))
          "POST" = (.ok (call, resp), evs) ∧
      headerLookup call.headers "Content-Type" = some ["application/json"]) := by
  refine ⟨declared_encoding_behavior.1 _ _ _ rfl,
    declared_encoding_behavior.2.1 _ _ _ rfl,
    declared_encoding_behavior.2.2.1 _ _, ?_⟩
  refine ⟨⟨"POST", "http://h/p",
      [("Content-Type", ["application/json"])],
      some (.bytesReader "null"), none⟩, ⟨200, "200 OK", [], ""⟩,
      [.transportDo ⟨"POST", "http://h/p",
        [("Content-Type", ["application/json"])],
        some (.bytesReader "null"), none⟩], ?_, ?_⟩
  · rfl
  · exact declared_encoding_behavior.2.2.2.2.1
      (fun cl => .ok ⟨200, "200 OK", [], ""⟩) ⟨[], 0⟩
      ⟨"http://h/p", "", [], [], 0, none, [], "", ""⟩
      (some (.custom ⟨none, none, none, .ok "null", .ok "<x/>", ""⟩)) "POST"
      ⟨"POST", "http://h/p", [("Content-Type", ["application/json"])],
        some (.bytesReader "null"), none⟩
      ⟨200, "200 OK", [], ""⟩
      [.transportDo ⟨"POST", "http://h/p",
        [("Content-Type", ["application/json"])],
        some (.bytesReader "null"), none⟩]
      rfl

theorem writeFormEntry_no_transport (fs : FS) (key : String) (v : FormDataValue)
    (call : HttpCall) : Event.transportDo call ∉ (writeFormEntry fs key v).2 := by
  unfold writeFormEntry
  rcases v with ⟨fld, file⟩
  cases file with
  | none => simp
  | some t =>
    cases t with
    | path p =>
      cases hs : fs.stat p with
      | error e => simp [hs]
      | ok info =>
        cases hreg : info.regular with
        | false => simp [hs, hreg]
        | true =>
          cases ho : fs.openFile p with
          | error e => simp [hs, hreg, ho]
          | ok fd => cases hc : fd.content <;> simp [hs, hreg, ho, hc]
    | osFile f =>
      cases hs : f.statRes with
      | error e => simp [hs]
      | ok info =>
        cases hreg : info.regular with
        | false => simp [hs, hreg]
        | true => cases hc : f.content <;> simp [hs, hreg, hc]
    | fileHeader h =>
      cases hop : h.openRes with
      | error e => simp [hop]
      | ok hf => cases hc : hf.content <;> simp [hop, hc]
    | reader fr => cases hc : fr.reader.content <;> simp [hc]
    | other => simp

theorem writeEntries_no_transport (fs : FS) (key : String) (l : List FormDataValue)
    (call : HttpCall) : Event.transportDo call ∉ (writeEntries fs key l).2 := by
  induction l with
  | nil => simp [writeEntries]
  | cons v vs ih =>
    unfold writeEntries
    have h1 := writeFormEntry_no_transport fs key v call
    cases hw : writeFormEntry fs key v with
    | mk res evs1 =>
      rw [hw] at h1
      cases res with
      | error e => simpa using h1
      | ok p =>
        cases hr : writeEntries fs key vs with
        | mk res2 evs2 =>
          have h2 := ih
          rw [hr] at h2
          have h1x : Event.transportDo call ∉ evs1 := by simpa using h1
          have h2x : Event.transportDo call ∉ evs2 := by simpa using h2
          cases res2 <;> simp [List.mem_append, h1x, h2x]

theorem assembleKeys_no_transport (fs : FS) (fd : List (String × List FormDataValue))
    (ks : List String) (call : HttpCall) :
    Event.transportDo call ∉ (assembleKeys fs fd ks).2 := by
  induction ks with
  | nil => simp [assembleKeys]
  | cons k ks ih =>
    unfold assembleKeys
    have h1 := writeEntries_no_transport fs k (fdLookup fd k) call
    cases hw : writeEntries fs k (fdLookup fd k) with
    | mk res evs1 =>
      rw [hw] at h1
      cases res with
      | error e => simpa using h1
      | ok ps =>
        cases hr : assembleKeys fs fd ks with
        | mk res2 evs2 =>
          have h2 := ih
          rw [hr] at h2
          have h1x : Event.transportDo call ∉ evs1 := by simpa using h1
          have h2x : Event.transportDo call ∉ evs2 := by simpa using h2
          cases res2 <;> simp [List.mem_append, h1x, h2x]

theorem assembleFormData_no_transport (fs : FS)
    (fd : List (String × List FormDataValue)) (call : HttpCall) :
    Event.transportDo call ∉ (assembleFormData fs fd).2 :=
  assembleKeys_no_transport fs fd _ call

/-- C6: a failure of body resolution aborts send with exactly that error
and an empty event trace — the transport is never invoked and no body
stream is handed anywhere; and a failure of multipart assembly aborts
UploadBy with exactly the assembly error, leaves the request (its stored
body, encoder and content-type fields included) unchanged, and its event
trace contains no transport invocation. -/
theorem failure_prevents_transport :
    (∀ tr c r method e, makeBodyReader r = .error e →
        send tr c r method = (.error e, [])) ∧
    (∀ tr fs boundary c r method e evs,
        r.uri ≠ "" → (goToUpper method = "POST" ∨ goToUpper method = "PUT") →
        r.bodyFormData ≠ [] →
        assembleFormData fs r.bodyFormData = (.error e, evs) →
        uploadBy tr fs boundary c r method = (.error e, r, evs) ∧
          ∀ call, Event.transportDo call ∉ evs) := by
  constructor
  · intro tr c r method e h
    unfold send
    rw [h]
  · intro tr fs boundary c r method e evs hu hm hfd ha
    have hlen : ¬ r.bodyFormData.length = 0 := by
      intro hx
      exact hfd (List.length_eq_zero.mp hx)
    constructor
    · unfold uploadBy
      rw [if_neg hu]
      rcases hm with hm | hm <;>
        rw [hm] <;>
        simp only [if_neg (by simp : ¬ (("POST" : String) ≠ "POST" ∧ True)), ha] <;>
        simp [hlen, ha]
    · intro call
      have h := assembleFormData_no_transport fs r.bodyFormData call
      rw [ha] at h
      exact h

/-- Witness for C6: an unrecognized body value aborts a send with no
events, and an invalid upload target aborts an upload leaving the request
untouched with no transport call. -/
theorem failure_prevents_transport_witness :
    (send (fun _ => .ok ⟨200, "200 OK", [], ""⟩) ⟨[], 0⟩
        ⟨"http://h/p", "", [], [], 0, some (.intVal 100), [], "", ""⟩ "POST"
      = (.error .invalidRequestBody, [])) ∧
    (uploadBy (fun _ => .ok ⟨200, "200 OK", [], ""⟩)
        ⟨fun _ => .error (.ioError "unused"), fun _ => .error (.ioError "unused")⟩
        "bnd" ⟨[], 0⟩
        ⟨"http://h/p", "", [], [], 0, none, [("k", [⟨"", some .other⟩])], "", ""⟩ "POST"
      = (.error .invalidUploadBody,
         ⟨"http://h/p", "", [], [], 0, none, [("k", [⟨"", some .other⟩])], "", ""⟩, []) ∧
      ∀ call, Event.transportDo call ∉ ([] : List Event)) :=
  ⟨failure_prevents_transport.1 _ _ _ _ _ rfl,
   failure_prevents_transport.2 _ _ _ _ _ _ _ _ (by decide) (Or.inl (by decide))
     (List.cons_ne_nil _ _) rfl⟩

theorem writeFormEntry_key (fs : FS) (key : String) (v : FormDataValue) (p : Part)
    (h : (writeFormEntry fs key v).1 = .ok p) : p.key = key := by
  rcases v with ⟨fld, file⟩
  cases file with
  | none =>
    simp [writeFormEntry] at h
    subst h
    rfl
  | some t =>
    cases t with
    | path pa =>
      cases hs : fs.stat pa with
      | error e => simp [writeFormEntry, hs] at h
      | ok info =>
        cases hreg : info.regular with
        | false => simp [writeFormEntry, hs, hreg] at h
        | true =>
          cases ho : fs.openFile pa with
          | error e => simp [writeFormEntry, hs, hreg, ho] at h
          | ok fd =>
            cases hc : fd.content with
            | error e => simp [writeFormEntry, hs, hreg, ho, hc] at h
            | ok data =>
              simp [writeFormEntry, hs, hreg, ho, hc] at h
              subst h
              rfl
    | osFile f =>
      cases hs : f.statRes with
      | error e => simp [writeFormEntry, hs] at h
      | ok info =>
        cases hreg : info.regular with
        | false => simp [writeFormEntry, hs, hreg] at h
        | true =>
          cases hc : f.content with
          | error e => simp [writeFormEntry, hs, hreg, hc] at h
          | ok data =>
            simp [writeFormEntry, hs, hreg, hc] at h
            subst h
            rfl
    | fileHeader hh =>
      cases hop : hh.openRes with
      | error e => simp [writeFormEntry, hop] at h
      | ok hf =>
        cases hc : hf.content with
        | error e => simp [writeFormEntry, hop, hc] at h
        | ok data =>
          simp [writeFormEntry, hop, hc] at h
          subst h
          rfl
    | reader fr =>
      cases hc : fr.reader.content with
      | error e => simp [writeFormEntry, hc] at h
      | ok data =>
        simp [writeFormEntry, hc] at h
        subst h
        rfl
    | other => simp [writeFormEntry] at h

theorem writeEntries_ok (fs : FS) (key : String) (l : List FormDataValue)
    (ps : List Part) (evs : List Event)
    (h : writeEntries fs key l = (.ok ps, evs)) :
    ps = l.filterMap (fun v => ((writeFormEntry fs key v).1).toOption) := by
  induction l generalizing ps evs with
  | nil =>
    simp only [writeEntries, Prod.mk.injEq, Except.ok.injEq] at h
    rw [← h.1]
    rfl
  | cons v vs ih =>
    unfold writeEntries at h
    cases hw : writeFormEntry fs key v with
    | mk res evs1 =>
      rw [hw] at h
      cases res with
      | error e => simp at h
      | ok p =>
        cases hr : writeEntries fs key vs with
        | mk res2 evs2 =>
          rw [hr] at h
          cases res2 with
          | error e => simp at h
          | ok ps2 =>
            simp only [Prod.mk.injEq, Except.ok.injEq] at h
            rw [← h.1, List.filterMap_cons, hw]
            simp [Except.toOption, ih ps2 evs2 hr]

theorem assembleKeys_ok (fs : FS) (fd : List (String × List FormDataValue))
    (ks : List String) (parts : List Part) (evs : List Event)
    (h : assembleKeys fs fd ks = (.ok parts, evs)) :
    parts = ks.flatMap (fun k => (fdLookup fd k).filterMap
      (fun v => ((writeFormEntry fs k v).1).toOption)) := by
  induction ks generalizing parts evs with
  | nil =>
    simp only [assembleKeys, Prod.mk.injEq, Except.ok.injEq] at h
    rw [← h.1]
    rfl
  | cons k ks ih =>
    unfold assembleKeys at h
    cases hw : writeEntries fs k (fdLookup fd k) with
    | mk res evs1 =>
      rw [hw] at h
      cases res with
      | error e => simp at h
      | ok ps =>
        cases hr : assembleKeys fs fd ks with
        | mk res2 evs2 =>
          rw [hr] at h
          cases res2 with
          | error e => simp at h
          | ok ps2 =>
            simp only [Prod.mk.injEq, Except.ok.injEq] at h
            rw [← h.1, List.flatMap_cons]
            rw [writeEntries_ok fs k (fdLookup fd k) ps evs1 hw, ih ps2 evs2 hr]

theorem assembleFormData_sort_eq (fs : FS)
    (fd : List (String × List FormDataValue)) :
    assembleFormData fs fd
      = assembleKeys fs fd ((fd.map Prod.fst).mergeSort (fun a b => a ≤ b)) := by
  unfold assembleFormData
  dsimp only
  by_cases hl : (fd.map Prod.fst).length > 1
  · rw [if_pos hl]
  · rw [if_neg hl]
    cases hfd : fd.map Prod.fst with
    | nil => rw [List.mergeSort_nil]
    | cons a t =>
      cases t with
      | nil => rw [List.mergeSort_singleton]
      | cons b t2 => rw [hfd] at hl; simp at hl

/-- C2: whenever multipart assembly succeeds, the produced parts are
exactly the per-entry parts grouped by field key in lexicographically
sorted key order and, within each key, in the order the entries were
added; accordingly the part keys read off as the sorted keys, one per
entry of that key. -/
theorem uploadBy_parts_sorted (fs : FS) (fd : List (String × List FormDataValue))
    (parts : List Part) (evs : List Event)
    (h : assembleFormData fs fd = (.ok parts, evs)) :
    parts = ((fd.map Prod.fst).mergeSort (fun a b => a ≤ b)).flatMap
        (fun k => (fdLookup fd k).filterMap
          (fun v => ((writeFormEntry fs k v).1).toOption)) ∧
    parts.map Part.key = ((fd.map Prod.fst).mergeSort (fun a b => a ≤ b)).flatMap
        (fun k => (fdLookup fd k).filterMap
          (fun v => (((writeFormEntry fs k v).1).toOption).map (fun _ => k))) := by
  rw [assembleFormData_sort_eq] at h
  have h1 := assembleKeys_ok fs fd _ parts evs h
  refine ⟨h1, ?_⟩
  rw [h1, List.map_flatMap]
  have hpt : ∀ k : String,
      List.map Part.key ((fdLookup fd k).filterMap
        (fun v => ((writeFormEntry fs k v).1).toOption))
      = (fdLookup fd k).filterMap
          (fun v => (((writeFormEntry fs k v).1).toOption).map (fun _ => k)) := by
    intro k
    rw [List.map_filterMap]
    refine List.filterMap_congr (fun v _ => ?_)
    cases hres : (writeFormEntry fs k v).1 with
    | error e => rfl
    | ok p => simp [Except.toOption, writeFormEntry_key fs k v p hres]
  simp only [hpt]

/-- Request used in the witness for C2: the key z is added before the key
a, each carrying one reader-backed file entry. -/
def uploadReqW : Req :=
  withFormDataFileFromReader (withFormDataFileFromReader
    ⟨"http://h/p", "", [], [], 0, none, [], "", ""⟩
    "z" "zf" (some ⟨.ok "ZZ"⟩)) "a" "af" (some ⟨.ok "AA"⟩)

/-- Witness for C2: with insertion order z then a, assembly succeeds and
the parts come out for key a first, then key z. -/
theorem uploadBy_parts_sorted_witness :
    uploadReqW.bodyFormData.map Prod.fst = ["z", "a"] ∧
    assembleFormData
        ⟨fun _ => .error (.ioError "unused"), fun _ => .error (.ioError "unused")⟩
        uploadReqW.bodyFormData
      = (.ok [Part.filePart "a" "af" "AA", Part.filePart "z" "zf" "ZZ"],
         [.writeFile "a" "af" "AA", .writeFile "z" "zf" "ZZ"]) ∧
    ([Part.filePart "a" "af" "AA", Part.filePart "z" "zf" "ZZ"].map Part.key
      = ["a", "z"]) := by
  have hms : (["z", "a"] : List String).mergeSort (fun a b => a ≤ b) = ["a", "z"] := by
    simp +decide [List.mergeSort, List.merge]
  have hassemble : assembleFormData
      ⟨fun _ => .error (.ioError "unused"), fun _ => .error (.ioError "unused")⟩
      uploadReqW.bodyFormData
      = (.ok [Part.filePart "a" "af" "AA", Part.filePart "z" "zf" "ZZ"],
         [.writeFile "a" "af" "AA", .writeFile "z" "zf" "ZZ"]) := by
    rw [assembleFormData_sort_eq]
    rw [show uploadReqW.bodyFormData.map Prod.fst = ["z", "a"] from rfl, hms]
    rfl
  have hkey := (uploadBy_parts_sorted
    ⟨fun _ => .error (.ioError "unused"), fun _ => .error (.ioError "unused")⟩
    uploadReqW.bodyFormData
    [Part.filePart "a" "af" "AA", Part.filePart "z" "zf" "ZZ"]
    [.writeFile "a" "af" "AA", .writeFile "z" "zf" "ZZ"] hassemble).2
  refine ⟨rfl, hassemble, ?_⟩
  rw [hkey]
  rw [show uploadReqW.bodyFormData.map Prod.fst = ["z", "a"] from rfl, hms]
  rfl

end Requester
